import Mathlib

/-!
Verification development for the PocketBase schema-to-Pydantic model rewriting
pipeline (src/main.py).  The core of that program is a sequence of structural
passes over the Python AST of generated model declarations, directed by the
fetched schema.  This file gives a shallow embedding of the statement and
type-expression fragment of the Python AST that those passes touch, translates
each pass into an executable Lean function, and proves properties of the
passes.

Modelling conventions, matching the source:
- Python dicts are association lists; writing a key that is already present
  replaces the value in place (keeping the key position), writing a fresh key
  appends it.  Dict comprehensions that invert a dict let the later pair win,
  so reverse lookups search from the end.
- Python exceptions (KeyError, StopIteration, TypeError, AttributeError) are
  modelled with Except String: the run aborts, no output is written.
- The source handles both the pre-3.9 ast.Index slice shape and the 3.9+
  shape; current Python parsers only produce the 3.9+ shape, which is the one
  embedded here.
- ast.walk is breadth-first; where a pass's result is order-independent the
  embedding traverses structurally, and where the first hit matters (finding
  the Collection class) the embedding performs the same breadth-first search.
-/

mutual
/-- The type-expression / annotation fragment of the Python AST used by the
generated model code: names, attribute access (qualified names), subscripts
(generics such as Optional[T] and Union[A, B], whose multi-argument slice is a
tuple), tuple and list displays, and string constants (enum member values). -/
inductive PExpr where
  | nameE (id : String)
  | attrE (value : PExpr) (attr : String)
  | subE (value : PExpr) (slice : PExpr)
  | tupE (elts : PExprList)
  | listE (elts : PExprList)
  | strC (s : String)
deriving DecidableEq, Repr
inductive PExprList where
  | nil
  | cons (e : PExpr) (es : PExprList)
deriving DecidableEq, Repr
end

mutual
/-- The statement fragment of the Python AST used by the generated model
code: import statements, class declarations, annotated field declarations
(name: Type), and plain assignments (enum members).  AnnAssign and Assign
targets are simple names in all generated code, so they are embedded as
strings. -/
inductive Stmt where
  | importFrom (modName : String) (names : List String)
  | classDef (name : String) (bases : PExprList) (body : StmtList)
  | annAssign (target : String) (anno : PExpr)
  | assign (targets : List String) (value : PExpr)
deriving DecidableEq, Repr
inductive StmtList where
  | nil
  | cons (s : Stmt) (rest : StmtList)
deriving DecidableEq, Repr
end

/-- Build a PExprList from a List. -/
def EL : List PExpr → PExprList
  | [] => .nil
  | e :: es => .cons e (EL es)

/-- Build a StmtList from a List. -/
def SL : List Stmt → StmtList
  | [] => .nil
  | s :: ss => .cons s (SL ss)

/-- Flatten a PExprList back to a List. -/
def PExprList.toListE : PExprList → List PExpr
  | .nil => []
  | .cons e es => e :: es.toListE

/-- Flatten a StmtList back to a List. -/
def StmtList.toListS : StmtList → List Stmt
  | .nil => []
  | .cons s ss => s :: ss.toListS

/-- Append a statement at the end of a statement list (Python list.append). -/
def StmtList.snoc : StmtList → Stmt → StmtList
  | .nil, s => .cons s .nil
  | .cons t ts, s => .cons t (ts.snoc s)

/-- A schema field as fetched from the backend: name, type, and for relation
fields the id of the target collection. -/
structure PBField where
  name : String
  type : String
  collectionId : Option String
deriving DecidableEq, Repr

/-- A schema collection (entity): id, name, fields. -/
structure PBCollection where
  id : String
  name : String
  fields : List PBField
deriving DecidableEq, Repr

/-- A schema field after wiring: the original field data plus, for relation
fields whose collectionId resolved, the full target collection record.  In the
source the reference aliases the (mutated) collection dict; downstream code
reads only its name, so storing the fetched record is observationally
equivalent. -/
structure WiredField where
  name : String
  type : String
  collectionId : Option String
  collectionRef : Option PBCollection
deriving DecidableEq, Repr

/-- A schema collection after wiring. -/
structure WiredCollection where
  id : String
  name : String
  fields : List WiredField
deriving DecidableEq, Repr

/-- The id-indexed lookup built by wire_pbschema_references
(lookup = dict keyed by collection id); on duplicate ids the later collection
wins, so the search runs from the end of the list. -/
def lookup_by_id (pb_schema : List PBCollection) (i : String) : Option PBCollection :=
  pb_schema.reverse.find? (fun col => col.id = i)

/-- Wiring of one field: a relation field whose collectionId is a key of the
lookup receives the target collection as collectionRef; every other field is
left without a collectionRef. -/
def wire_field (pb_schema : List PBCollection) (f : PBField) : WiredField :=
  if f.type = "relation" then
    match f.collectionId with
    | some parent_id =>
      match lookup_by_id pb_schema parent_id with
      | some col => ⟨f.name, f.type, f.collectionId, some col⟩
      | none => ⟨f.name, f.type, f.collectionId, none⟩
    | none => ⟨f.name, f.type, f.collectionId, none⟩
  else ⟨f.name, f.type, f.collectionId, none⟩

/-- wire_pbschema_references: resolve each relation field's collectionId
against the id lookup and attach the target collection as collectionRef. -/
def wire_pbschema_references (pb_schema : List PBCollection) : List WiredCollection :=
  pb_schema.map (fun col => ⟨col.id, col.name, col.fields.map (wire_field pb_schema)⟩)

/-- Strip the collectionRef wiring from a field again. -/
def unwire_field (f : WiredField) : PBField :=
  ⟨f.name, f.type, f.collectionId⟩

/-- Strip the wiring from a collection again. -/
def unwire_collection (c : WiredCollection) : PBCollection :=
  ⟨c.id, c.name, c.fields.map unwire_field⟩

/-- Forward lookup in a dict modelled as an association list with unique keys
(association lists in this file are built by in-place upsert, as Python dicts
are, so the first match is the only match). -/
def dict_get (d : List (String × Option String)) (k : String) : Option (Option String) :=
  (d.find? (fun p => p.1 = k)).map (fun p => p.2)

/-- Lookup in the inverted registry reversed_dict = the dict inverting
classnames_original_collection_names.  Inversion lets a later pair win on a
duplicate value, so the search runs from the end. -/
def rev_dict_get (d : List (String × Option String)) (v : String) : Option String :=
  ((d.reverse).find? (fun p => p.2 = some v)).map (fun p => p.1)

/-- The base case of recursive_replace on the placeholder name: map the
owning class back to its collection through the reversed registry, find that
collection and the owning field in the wired schema, read the relation
target from collectionRef, and return the registered class of the target as
a Name.  Each failing dict/iterator access of the source (reversed_dict[...],
the two next(...) calls, subscripting an absent collectionRef,
classnames[...]) is an error; a registry value of Python None would put
ast.Name(id=None) in the tree and make the final ast.unparse of the run fail,
so it is also an error here (either way the run aborts with no output
written). -/
def resolve_rid (pb_schema_with_references : List WiredCollection)
    (classnames : List (String × Option String))
    (field_name : String) (parent_class : String) : Except String PExpr :=
  match rev_dict_get classnames parent_class with
  | none => .error "KeyError: owning class has no entry in the reversed registry"
  | some original_collection_name =>
    match pb_schema_with_references.find? (fun x => x.name = original_collection_name) with
    | none => .error "StopIteration: no schema collection with the registered name"
    | some parent_original_schema =>
      match parent_original_schema.fields.find? (fun f => f.name = field_name) with
      | none => .error "StopIteration: field name not found in the schema collection"
      | some field_original_schema =>
        match field_original_schema.collectionRef with
        | none => .error "TypeError: NoneType collectionRef is not subscriptable"
        | some schema_collection_ref =>
          match dict_get classnames schema_collection_ref.name with
          | none => .error "KeyError: target collection has no registry entry"
          | some none => .error "registry maps the target to None: ast.Name(id=None) makes ast.unparse fail"
          | some (some class_name) => .ok (.nameE class_name)

mutual
/-- recursive_replace from replace_relation_annotations: replace every
reachable Name "RecordIdString" in an annotation by the class registered for
the relation target of the owning field (resolve_rid), recursing through
subscript values and slices and through tuple and list elements; other node
shapes are returned unchanged. -/
def recursive_replace (pb_schema_with_references : List WiredCollection)
    (classnames : List (String × Option String))
    (field_name : String) (parent_class : String) : PExpr → Except String PExpr
  | .nameE id =>
    if id = "RecordIdString" then
      resolve_rid pb_schema_with_references classnames field_name parent_class
    else .ok (.nameE id)
  | .subE v s =>
    match recursive_replace pb_schema_with_references classnames field_name parent_class v with
    | .error e => .error e
    | .ok v2 =>
      match recursive_replace pb_schema_with_references classnames field_name parent_class s with
      | .error e => .error e
      | .ok s2 => .ok (.subE v2 s2)
  | .tupE es =>
    match recursive_replace_list pb_schema_with_references classnames field_name parent_class es with
    | .error e => .error e
    | .ok es2 => .ok (.tupE es2)
  | .listE es =>
    match recursive_replace_list pb_schema_with_references classnames field_name parent_class es with
    | .error e => .error e
    | .ok es2 => .ok (.listE es2)
  | .attrE v a => .ok (.attrE v a)
  | .strC s => .ok (.strC s)
def recursive_replace_list (pb_schema_with_references : List WiredCollection)
    (classnames : List (String × Option String))
    (field_name : String) (parent_class : String) : PExprList → Except String PExprList
  | .nil => .ok .nil
  | .cons e es =>
    match recursive_replace pb_schema_with_references classnames field_name parent_class e with
    | .error msg => .error msg
    | .ok e2 =>
      match recursive_replace_list pb_schema_with_references classnames field_name parent_class es with
      | .error msg => .error msg
      | .ok es2 => .ok (.cons e2 es2)
end

/-- The per-class part of replace_relation_annotations: rewrite the annotation
of every annotated field declared directly in a class body (with that class as
the owning class), and recurse into nested classes (ast.walk visits every
ClassDef). -/
def rra_body (pb_schema_with_references : List WiredCollection)
    (classnames : List (String × Option String))
    (parent_class : String) : StmtList → Except String StmtList
  | .nil => .ok .nil
  | .cons s rest =>
    match s with
    | .annAssign target anno =>
      match recursive_replace pb_schema_with_references classnames target parent_class anno with
      | .error msg => .error msg
      | .ok anno2 =>
        match rra_body pb_schema_with_references classnames parent_class rest with
        | .error msg => .error msg
        | .ok rest2 => .ok (.cons (.annAssign target anno2) rest2)
    | .classDef n b body =>
      match rra_body pb_schema_with_references classnames n body with
      | .error msg => .error msg
      | .ok body2 =>
        match rra_body pb_schema_with_references classnames parent_class rest with
        | .error msg => .error msg
        | .ok rest2 => .ok (.cons (.classDef n b body2) rest2)
    | other =>
      match rra_body pb_schema_with_references classnames parent_class rest with
      | .error msg => .error msg
      | .ok rest2 => .ok (.cons other rest2)

/-- replace_relation_annotations: for every class anywhere in the tree,
rewrite the annotations of its directly declared fields with
recursive_replace.  Statements at module level that are not classes are left
untouched (ast.walk only processes AnnAssign nodes through their ClassDef). -/
def replace_relation_annotations (pb_schema_with_references : List WiredCollection)
    (classnames : List (String × Option String)) : StmtList → Except String StmtList
  | .nil => .ok .nil
  | .cons s rest =>
    match s with
    | .classDef n b body =>
      match rra_body pb_schema_with_references classnames n body with
      | .error msg => .error msg
      | .ok body2 =>
        match replace_relation_annotations pb_schema_with_references classnames rest with
        | .error msg => .error msg
        | .ok rest2 => .ok (.cons (.classDef n b body2) rest2)
    | other =>
      match replace_relation_annotations pb_schema_with_references classnames rest with
      | .error msg => .error msg
      | .ok rest2 => .ok (.cons other rest2)

/-- The class declarations occurring directly in a statement list, in order. -/
def class_children : StmtList → List Stmt
  | .nil => []
  | .cons s rest =>
    match s with
    | .classDef n b body => .classDef n b body :: class_children rest
    | _ => class_children rest

mutual
/-- Number of class declarations in a statement, itself included, at any
depth. -/
def stmt_class_count : Stmt → Nat
  | .classDef _ _ body => 1 + list_class_count body
  | _ => 0
/-- Number of class declarations in a statement list at any depth. -/
def list_class_count : StmtList → Nat
  | .nil => 0
  | .cons s rest => stmt_class_count s + list_class_count rest
end

/-- One breadth-first step per unit of fuel: the queue starts with the
top-level classes in order and each dequeued class appends its directly
nested classes, exactly as ast.walk enqueues children.  Every class of the
tree enters the queue at most once, so fuel equal to the total class count is
enough to exhaust the queue. -/
def find_collection_fuel : Nat → List Stmt → Option StmtList
  | 0, _ => none
  | _ + 1, [] => none
  | fuel + 1, .classDef n _ body :: q =>
    if n = "Collection" then some body
    else find_collection_fuel fuel (q ++ class_children body)
  | fuel + 1, _ :: q => find_collection_fuel fuel q

/-- Breadth-first search for the first class named Collection, as ast.walk
finds it.  Returns the body of the class found. -/
def find_collection_class (tree : StmtList) : Option StmtList :=
  find_collection_fuel (list_class_count tree) (class_children tree)

/-- Python str.endswith: suffix test on the character sequence. -/
def str_ends_with (s suf : String) : Bool :=
  suf.data.isSuffixOf s.data

/-- Python s[:-n]: drop the last n characters. -/
def str_drop_right (s : String) (n : Nat) : String :=
  String.mk (s.data.take (s.data.length - n))

/-- The type name a Collection-class field annotation contributes to the
registry: the name itself for a bare name, the slice name for a one-level
subscript whose slice is a name, and nothing otherwise. -/
def extract_type_name : PExpr → Option String
  | .nameE id => some id
  | .subE _ slice =>
    match slice with
    | .nameE id => some id
    | _ => none
  | _ => none

/-- Strip the Record suffix from an extracted type name, when present. -/
def strip_record : Option String → Option String
  | some t => if str_ends_with t "Record" then some (str_drop_right t 6) else some t
  | none => none

/-- Python-dict upsert on an association list with Option String values:
an existing key keeps its position and gets the new value, a fresh key is
appended. -/
def dict_set (d : List (String × Option String)) (k : String) (v : Option String) :
    List (String × Option String) :=
  if d.any (fun p => p.1 = k) then
    d.map (fun p => if p.1 = k then (k, v) else p)
  else d ++ [(k, v)]

/-- Fold of get_classnames_original_collection_names over the Collection
class body: every annotated field contributes fieldName maps-to extracted
type name (Record-stripped), later duplicates overwriting earlier ones. -/
def collect_classnames (body : StmtList) (acc : List (String × Option String)) :
    List (String × Option String) :=
  match body with
  | .nil => acc
  | .cons s rest =>
    match s with
    | .annAssign target anno =>
      collect_classnames rest (dict_set acc target (strip_record (extract_type_name anno)))
    | _ => collect_classnames rest acc

/-- get_classnames_original_collection_names: find the first class named
Collection (breadth-first, as ast.walk does) and map each of its annotated
field names to the type name extracted from the annotation, with the Record
suffix removed.  An empty mapping results when no Collection class exists. -/
def get_classnames_original_collection_names (tree : StmtList) :
    List (String × Option String) :=
  match find_collection_class tree with
  | none => []
  | some body => collect_classnames body []

/-- remove_classes: delete every top-level class declaration whose name is in
the given list; nothing else is touched. -/
def remove_classes (tree : StmtList) (classes : List String) : StmtList :=
  match tree with
  | .nil => .nil
  | .cons s rest =>
    match s with
    | .classDef n b body =>
      if classes.contains n then remove_classes rest classes
      else .cons (.classDef n b body) (remove_classes rest classes)
    | other => .cons other (remove_classes rest classes)

/-- remove_classes_with_suffixes: delete every top-level class declaration
whose name ends with one of the given suffixes. -/
def remove_classes_with_suffixes (tree : StmtList) (suffixes : List String) : StmtList :=
  match tree with
  | .nil => .nil
  | .cons s rest =>
    match s with
    | .classDef n b body =>
      if suffixes.any (fun suf => str_ends_with n suf) then remove_classes_with_suffixes rest suffixes
      else .cons (.classDef n b body) (remove_classes_with_suffixes rest suffixes)
    | other => .cons other (remove_classes_with_suffixes rest suffixes)

/-- Apply the ordered suffix map to one class name: the first matching old
suffix is stripped and replaced (the source breaks out of the loop after the
first hit). -/
def apply_suffix_map : List (String × String) → String → String
  | [], n => n
  | (old, srep) :: rest, n =>
    if str_ends_with n old then str_drop_right n old.length ++ srep
    else apply_suffix_map rest n

mutual
/-- replace_class_suffixes on a single statement: rename every class at any
depth by the ordered suffix map; references are not touched. -/
def replace_class_suffixes_stmt (m : List (String × String)) : Stmt → Stmt
  | .classDef n b body => .classDef (apply_suffix_map m n) b (replace_class_suffixes_list m body)
  | s => s
/-- replace_class_suffixes over a statement list. -/
def replace_class_suffixes_list (m : List (String × String)) : StmtList → StmtList
  | .nil => .nil
  | .cons s rest => .cons (replace_class_suffixes_stmt m s) (replace_class_suffixes_list m rest)
end

/-- replace_class_suffixes: rename every class declaration in the tree whose
name ends with a key of the suffix map. -/
def replace_class_suffixes (m : List (String × String)) (tree : StmtList) : StmtList :=
  replace_class_suffixes_list m tree

mutual
/-- remove_config_classes on a single statement: filter nested classes named
Config out of every class body at any depth.  Top-level statements themselves
are not removed (the source only rewrites ClassDef bodies). -/
def remove_config_stmt : Stmt → Stmt
  | .classDef n b body => .classDef n b (remove_config_body body)
  | s => s
/-- remove_config_classes inside a class body: drop directly nested Config
classes and recurse into the remaining nested classes. -/
def remove_config_body : StmtList → StmtList
  | .nil => .nil
  | .cons s rest =>
    match s with
    | .classDef cn b body =>
      if cn = "Config" then remove_config_body rest
      else .cons (remove_config_stmt (.classDef cn b body)) (remove_config_body rest)
    | other => .cons other (remove_config_body rest)
end

/-- remove_config_classes: remove inner Config classes from every class. -/
def remove_config_classes : StmtList → StmtList
  | .nil => .nil
  | .cons s rest => .cons (remove_config_stmt s) (remove_config_classes rest)

/-- Is a statement an import statement. -/
def is_import : Stmt → Bool
  | .importFrom _ _ => true
  | _ => false

/-- Index one past the last import statement of the list (0 when there is
none), the insertion point used by add_imports. -/
def insert_index_after_imports (l : List Stmt) : Nat :=
  match (((l.enum).filter (fun p => is_import p.2)).map (fun p => p.1)).getLast? with
  | some i => i + 1
  | none => 0

/-- add_imports: insert the given (already parsed) import statements right
after the last existing import of the module body. -/
def add_imports (import_nodes : List Stmt) (tree : StmtList) : StmtList :=
  let l := tree.toListS
  let idx := insert_index_after_imports l
  SL (l.take idx ++ import_nodes ++ l.drop idx)

/-- Lookup in a plain string-to-string dict (association list, unique keys). -/
def sdict_get (d : List (String × String)) (k : String) : Option String :=
  (d.find? (fun p => p.1 = k)).map (fun p => p.2)

mutual
/-- rename_classes on an expression: rewrite every Name whose id is a key of
the rename map. -/
def rename_classes_expr (m : List (String × String)) : PExpr → PExpr
  | .nameE id =>
    match sdict_get m id with
    | some v => .nameE v
    | none => .nameE id
  | .attrE v a => .attrE (rename_classes_expr m v) a
  | .subE v s => .subE (rename_classes_expr m v) (rename_classes_expr m s)
  | .tupE es => .tupE (rename_classes_expr_list m es)
  | .listE es => .listE (rename_classes_expr_list m es)
  | .strC s => .strC s
/-- rename_classes over an expression list. -/
def rename_classes_expr_list (m : List (String × String)) : PExprList → PExprList
  | .nil => .nil
  | .cons e es => .cons (rename_classes_expr m e) (rename_classes_expr_list m es)
end

/-- Rename a plain name by the rename map (an AnnAssign or Assign target is a
Name node in the source, so rename_classes rewrites it too). -/
def rename_target (m : List (String × String)) (t : String) : String :=
  match sdict_get m t with
  | some v => v
  | none => t

mutual
/-- rename_classes on a statement: rename class declarations whose name is a
key of the map and every Name reference at any depth. -/
def rename_classes_stmt (m : List (String × String)) : Stmt → Stmt
  | .classDef n b body =>
    .classDef (rename_target m n) (rename_classes_expr_list m b) (rename_classes_list m body)
  | .annAssign t anno => .annAssign (rename_target m t) (rename_classes_expr m anno)
  | .assign ts v => .assign (ts.map (rename_target m)) (rename_classes_expr m v)
  | .importFrom mo ns => .importFrom mo ns
/-- rename_classes over a statement list. -/
def rename_classes_list (m : List (String × String)) : StmtList → StmtList
  | .nil => .nil
  | .cons s rest => .cons (rename_classes_stmt m s) (rename_classes_list m rest)
end

/-- rename_classes: rename classes and references throughout the tree. -/
def rename_classes (m : List (String × String)) (tree : StmtList) : StmtList :=
  rename_classes_list m tree

/-- replace_types: for each pair of the rename map in order, delete the
top-level class of the old name and rename every remaining declaration and
reference of it to the new name. -/
def replace_types : List (String × String) → StmtList → StmtList
  | [], tree => tree
  | (k, v) :: rest, tree =>
    replace_types rest (rename_classes [(k, v)] (remove_classes tree [k]))

/-- Does a base list contain the bare name Enum. -/
def bases_has_enum : PExprList → Bool
  | .nil => false
  | .cons e es =>
    (match e with
     | .nameE id => id = "Enum"
     | _ => false) || bases_has_enum es

/-- Is a statement a class declaration with base Enum. -/
def is_enum_class : Stmt → Bool
  | .classDef _ b _ => bases_has_enum b
  | _ => false

/-- Strip trailing decimal digits from a class name; a name consisting only
of digits is returned unchanged (the index scan of the source ends at -1 and
falls back to the whole name). -/
def strip_trailing_digits (s : String) : String :=
  let t := String.mk ((s.toList.reverse.dropWhile Char.isDigit).reverse)
  if t = "" then s else t

/-- Append-upsert for enum grouping: an existing group key gets the class
appended to its fragment list, a new key opens a group at the end (Python
dict setdefault order). -/
def group_add (g : List (String × List Stmt)) (k : String) (s : Stmt) :
    List (String × List Stmt) :=
  if g.any (fun p => p.1 = k) then
    g.map (fun p => if p.1 = k then (p.1, p.2 ++ [s]) else p)
  else g ++ [(k, [s])]

/-- The top-level Enum classes of the tree, in order. -/
def top_level_enum_stmts (tree : StmtList) : List Stmt :=
  (tree.toListS).filter is_enum_class

/-- Group the top-level Enum classes by their name with trailing digits
stripped, in first-seen order. -/
def enum_groups (tree : StmtList) : List (String × List Stmt) :=
  (top_level_enum_stmts tree).foldl
    (fun g s =>
      match s with
      | .classDef n _ _ => group_add g (strip_trailing_digits n) s
      | _ => g)
    []

/-- Python-dict upsert for merged enum members: an existing member name keeps
its position and takes the later value, a new member is appended. -/
def member_set (m : List (String × PExpr)) (k : String) (v : PExpr) :
    List (String × PExpr) :=
  if m.any (fun p => p.1 = k) then
    m.map (fun p => if p.1 = k then (k, v) else p)
  else m ++ [(k, v)]

/-- Collect the member assignments of one enum fragment body into the merged
member dict: each assignment contributes every one of its targets with the
assigned value. -/
def collect_members (body : StmtList) (acc : List (String × PExpr)) :
    List (String × PExpr) :=
  match body with
  | .nil => acc
  | .cons s rest =>
    match s with
    | .assign targets v =>
      collect_members rest (targets.foldl (fun a t => member_set a t v) acc)
    | _ => collect_members rest acc

/-- Union of the member dicts of all fragments of a group, in fragment order;
a later fragment wins on a member-name collision. -/
def merged_members (group : List Stmt) : List (String × PExpr) :=
  group.foldl
    (fun acc s =>
      match s with
      | .classDef _ _ body => collect_members body acc
      | _ => acc)
    []

/-- The merged enum declaration built for a group: base name, single base
Enum, one assignment per merged member. -/
def merged_enum_decl (base_name : String) (group : List Stmt) : Stmt :=
  .classDef base_name (EL [PExpr.nameE "Enum"])
    (SL ((merged_members group).map (fun p => Stmt.assign [p.1] p.2)))

/-- Remove the fragments of the group being merged from the top level: the
top-level Enum classes whose name strips to the group key (exactly the
members of the group, which the source removes by object identity). -/
def remove_enum_group (tree : StmtList) (base_name : String) : StmtList :=
  match tree with
  | .nil => .nil
  | .cons s rest =>
    if is_enum_class s &&
       (match s with
        | .classDef n _ _ => strip_trailing_digits n = base_name
        | _ => false) then
      remove_enum_group rest base_name
    else .cons s (remove_enum_group rest base_name)

mutual
/-- Does an expression contain a Name node with one of the given ids. -/
def expr_refs_any (names : List String) : PExpr → Bool
  | .nameE id => names.contains id
  | .attrE v _ => expr_refs_any names v
  | .subE v s => expr_refs_any names v || expr_refs_any names s
  | .tupE es => expr_list_refs_any names es
  | .listE es => expr_list_refs_any names es
  | .strC _ => false
/-- Does an expression list contain a Name node with one of the given ids. -/
def expr_list_refs_any (names : List String) : PExprList → Bool
  | .nil => false
  | .cons e es => expr_refs_any names e || expr_list_refs_any names es
end

mutual
/-- Does a statement contain, at any depth, a Name node with one of the given
ids (ast.walk visits annotations, assignment targets and values, and class
bases; targets are Name nodes in the source). -/
def stmt_refs_any (names : List String) : Stmt → Bool
  | .classDef _ b body => expr_list_refs_any names b || list_refs_any names body
  | .annAssign t anno => names.contains t || expr_refs_any names anno
  | .assign ts v => ts.any (fun t => names.contains t) || expr_refs_any names v
  | .importFrom _ _ => false
/-- Does a statement list contain a Name node with one of the given ids. -/
def list_refs_any (names : List String) : StmtList → Bool
  | .nil => false
  | .cons s rest => stmt_refs_any names s || list_refs_any names rest
end

/-- Insert the merged declaration at the front of the body of the first
top-level class that references one of the fragment names; none when no
top-level class references them. -/
def insert_into_first_ref (tree : StmtList) (names : List String) (merged : Stmt) :
    Option StmtList :=
  match tree with
  | .nil => none
  | .cons s rest =>
    match s with
    | .classDef n b body =>
      if stmt_refs_any names (.classDef n b body) then
        some (.cons (.classDef n b (.cons merged body)) rest)
      else
        match insert_into_first_ref rest names merged with
        | some rest2 => some (.cons (.classDef n b body) rest2)
        | none => none
    | other =>
      match insert_into_first_ref rest names merged with
      | some rest2 => some (.cons other rest2)
      | none => none

mutual
/-- Rewrite every Name node with one of the old fragment ids to the merged
name (step 6 of merge_all_enum_classes); class declaration names are plain
strings in the AST and stay unchanged. -/
def rename_names_expr (names : List String) (to_name : String) : PExpr → PExpr
  | .nameE id => if names.contains id then .nameE to_name else .nameE id
  | .attrE v a => .attrE (rename_names_expr names to_name v) a
  | .subE v s => .subE (rename_names_expr names to_name v) (rename_names_expr names to_name s)
  | .tupE es => .tupE (rename_names_expr_list names to_name es)
  | .listE es => .listE (rename_names_expr_list names to_name es)
  | .strC s => .strC s
/-- rename_names_expr over an expression list. -/
def rename_names_expr_list (names : List String) (to_name : String) : PExprList → PExprList
  | .nil => .nil
  | .cons e es =>
    .cons (rename_names_expr names to_name e) (rename_names_expr_list names to_name es)
end

mutual
/-- Rewrite fragment-name references in a statement (targets are Name nodes
in the source and are rewritten too). -/
def rename_names_stmt (names : List String) (to_name : String) : Stmt → Stmt
  | .classDef n b body =>
    .classDef n (rename_names_expr_list names to_name b) (rename_names_list names to_name body)
  | .annAssign t anno =>
    .annAssign (if names.contains t then to_name else t) (rename_names_expr names to_name anno)
  | .assign ts v =>
    .assign (ts.map (fun t => if names.contains t then to_name else t))
      (rename_names_expr names to_name v)
  | .importFrom mo ns => .importFrom mo ns
/-- rename_names_stmt over a statement list. -/
def rename_names_list (names : List String) (to_name : String) : StmtList → StmtList
  | .nil => .nil
  | .cons s rest =>
    .cons (rename_names_stmt names to_name s) (rename_names_list names to_name rest)
end

/-- Merge one enum group into the tree: build the merged declaration from the
unioned members, delete the fragments, nest the merged declaration inside the
first top-level class referencing a fragment name (or put it at the top of
the module when none does), and rewrite every fragment-name reference in the
whole tree to the merged name. -/
def merge_enum_group (tree : StmtList) (base_name : String) (group : List Stmt) : StmtList :=
  let merged := merged_enum_decl base_name group
  let old_names := group.filterMap
    (fun s => match s with | .classDef n _ _ => some n | _ => none)
  let t1 := remove_enum_group tree base_name
  let t2 :=
    match insert_into_first_ref t1 old_names merged with
    | some t => t
    | none => .cons merged t1
  rename_names_list old_names base_name t2

/-- merge_all_enum_classes: group the top-level Enum classes by stripped
name and merge each group in first-seen order. -/
def merge_all_enum_classes (tree : StmtList) : StmtList :=
  (enum_groups tree).foldl (fun t p => merge_enum_group t p.1 p.2) tree

/-- A single-quote character, for rendering Python string constants. -/
def squote : String := String.singleton (Char.ofNat 39)

mutual
/-- ast.unparse on the expression fragment, used by the union-collapsing pass
as the deduplication key.  A tuple in slice position renders without
parentheses (with a trailing comma when it has one element), as ast.unparse
renders it. -/
def unparseE : PExpr → String
  | .nameE id => id
  | .attrE v a => unparseE v ++ "." ++ a
  | .subE v s =>
    unparseE v ++ "[" ++
      (match s with
       | .tupE es =>
         match unparse_parts es with
         | [] => "()"
         | [a] => a ++ ","
         | parts => String.intercalate ", " parts
       | .nameE id => id
       | .attrE v2 a2 => unparseE v2 ++ "." ++ a2
       | other => unparseE other) ++ "]"
  | .tupE es =>
    (match unparse_parts es with
     | [] => "()"
     | [a] => "(" ++ a ++ ",)"
     | parts => "(" ++ String.intercalate ", " parts ++ ")")
  | .listE es => "[" ++ String.intercalate ", " (unparse_parts es) ++ "]"
  | .strC s => squote ++ s ++ squote
/-- Rendered elements of an expression list, in order. -/
def unparse_parts : PExprList → List String
  | .nil => []
  | .cons e es => unparseE e :: unparse_parts es
end

/-- Python-dict upsert for the seen dict of the union collapse: the key is
the rendered source text of a member; an existing key keeps its position and
takes the later (identically rendered) member, a fresh key is appended. -/
def seen_set (d : List (String × PExpr)) (k : String) (v : PExpr) :
    List (String × PExpr) :=
  if d.any (fun p => p.1 = k) then
    d.map (fun p => if p.1 = k then (k, v) else p)
  else d ++ [(k, v)]

/-- The seen dict built over the members of a Union, keyed by rendered text.
The source also computes key.split(".")[-1] and tests it against the nested
enum names, but stores the member under its key in both branches of that
test, so the deduplication applies to every member type alike. -/
def seen_fold (d : List (String × PExpr)) : List PExpr → List (String × PExpr)
  | [] => d
  | e :: es => seen_fold (seen_set d (unparseE e) e) es

/-- list(seen.values()): the collapsed member list of a Union. -/
def collapse_elts (elts : List PExpr) : List PExpr :=
  (seen_fold [] elts).map (fun p => p.2)

/-- Upsert on a string-to-string dict. -/
def ssdict_set (d : List (String × String)) (k : String) (v : String) :
    List (String × String) :=
  if d.any (fun p => p.1 = k) then
    d.map (fun p => if p.1 = k then (k, v) else p)
  else d ++ [(k, v)]

mutual
/-- Step 5 of simplify_enum_union_annotations, the NodeTransformer: qualify
every Name that is a nested enum name with its owning class (visit_Name), and
on every Union subscript collapse members that render to the same source text
and replace a single-member union by its member (visit_Subscript, which
visits children first). -/
def tf_expr (efn : List (String × String)) : PExpr → PExpr
  | .nameE id =>
    match sdict_get efn id with
    | some parent => .attrE (.nameE parent) id
    | none => .nameE id
  | .attrE v a => .attrE (tf_expr efn v) a
  | .subE v s =>
    let v2 := tf_expr efn v
    let s2 := tf_expr efn s
    (match v2 with
     | .nameE vid =>
       if vid = "Union" then
         let elts := match s2 with | .tupE es => es.toListE | e => [e]
         match collapse_elts elts with
         | [e] => e
         | uniq =>
           match s2 with
           | .tupE _ => .subE v2 (.tupE (EL uniq))
           | _ => .subE v2 s2
       else .subE v2 s2
     | _ => .subE v2 s2)
  | .tupE es => .tupE (tf_expr_list efn es)
  | .listE es => .listE (tf_expr_list efn es)
  | .strC s => .strC s
/-- The transformer over an expression list. -/
def tf_expr_list (efn : List (String × String)) : PExprList → PExprList
  | .nil => .nil
  | .cons e es => .cons (tf_expr efn e) (tf_expr_list efn es)
end

mutual
/-- The transformer over statements: it rewrites class bases, annotations and
assigned values at any depth.  (It would also rewrite an assignment target
Name whose id equals a nested enum name into an attribute node; targets are
plain strings here and generated models never name a field after an enum
class, so targets stay unchanged.) -/
def tf_stmt (efn : List (String × String)) : Stmt → Stmt
  | .classDef n b body => .classDef n (tf_expr_list efn b) (tf_list efn body)
  | .annAssign t anno => .annAssign t (tf_expr efn anno)
  | .assign ts v => .assign ts (tf_expr efn v)
  | .importFrom mo ns => .importFrom mo ns
/-- The transformer over a statement list. -/
def tf_list (efn : List (String × String)) : StmtList → StmtList
  | .nil => .nil
  | .cons s rest => .cons (tf_stmt efn s) (tf_list efn rest)
end

/-- The names of the Enum classes nested directly in a class body, in order. -/
def nested_enum_names (body : StmtList) : List String :=
  (body.toListS).filterMap
    (fun s =>
      match s with
      | .classDef n b _ => if bases_has_enum b then some n else none
      | _ => none)

/-- Upsert on a dict from class names to nested enum name lists. -/
def slist_set (d : List (String × List String)) (k : String) (v : List String) :
    List (String × List String) :=
  if d.any (fun p => p.1 = k) then
    d.map (fun p => if p.1 = k then (k, v) else p)
  else d ++ [(k, v)]

/-- Step 1 of simplify_enum_union_annotations: map each top-level class that
has directly nested Enum classes to their names. -/
def build_parent_map (tree : StmtList) : List (String × List String) :=
  (tree.toListS).foldl
    (fun m s =>
      match s with
      | .classDef n _ body =>
        let nested := nested_enum_names body
        if nested.isEmpty then m else slist_set m n nested
      | _ => m)
    []

/-- Remove the first statement structurally equal to the given one (Python
list.remove; at its call sites the statement is always present). -/
def remove_first_eq (tree : StmtList) (e : Stmt) : StmtList :=
  match tree with
  | .nil => .nil
  | .cons s rest => if s = e then rest else .cons s (remove_first_eq rest e)

/-- Append the moved enum to every top-level class named like the first
parent.  The source reads cls.name on every element of the module body, so a
module-level statement that is not a class raises AttributeError. -/
def append_to_parent (tree : StmtList) (parent : String) (e : Stmt) :
    Except String StmtList :=
  match tree with
  | .nil => .ok .nil
  | .cons s rest =>
    match s with
    | .classDef n b body =>
      match append_to_parent rest parent e with
      | .error msg => .error msg
      | .ok rest2 =>
        .ok (.cons (if n = parent then .classDef n b (body.snoc e) else .classDef n b body) rest2)
    | _ => .error "AttributeError: module-level statement has no name attribute"

/-- Step 3 of simplify_enum_union_annotations: move each top-level Enum class
into the first parent class of the parent map, renaming it with a trailing
underscore when its name collides with an enum already nested there. -/
def move_top_enums (first_parent : String) (tree : StmtList) (names : List String) :
    List Stmt → Except String (StmtList × List String)
  | [] => .ok (tree, names)
  | e :: rest =>
    match e with
    | .classDef n b body =>
      let n2 := if names.contains n then n ++ "_" else n
      let e2 := Stmt.classDef n2 b body
      let t1 := remove_first_eq tree e
      match append_to_parent t1 first_parent e2 with
      | .error msg => .error msg
      | .ok t2 => move_top_enums first_parent t2 (names ++ [n2]) rest
    | _ => move_top_enums first_parent tree names rest

/-- Step 4 of simplify_enum_union_annotations: map every nested enum name to
its owning top-level class (a later owner overwrites an earlier one). -/
def build_enum_full_names (tree : StmtList) : List (String × String) :=
  (tree.toListS).foldl
    (fun m s =>
      match s with
      | .classDef cn _ body =>
        (nested_enum_names body).foldl (fun m2 en => ssdict_set m2 en cn) m
      | _ => m)
    []

/-- simplify_enum_union_annotations: nest the remaining top-level enums into
the first class that already has nested enums (when both exist), then qualify
enum references with their owning class and collapse duplicate members of
Union annotations (a union reduced to one member becomes that member). -/
def simplify_enum_union_annotations (tree : StmtList) : Except String StmtList :=
  let parent_map := build_parent_map tree
  let top_enums := top_level_enum_stmts tree
  let step3 : Except String StmtList :=
    match parent_map with
    | [] => .ok tree
    | (fp, fnames) :: _ =>
      if top_enums.isEmpty then .ok tree
      else
        match move_top_enums fp tree fnames top_enums with
        | .error msg => .error msg
        | .ok (t2, _) => .ok t2
  match step3 with
  | .error msg => .error msg
  | .ok t2 => .ok (tf_list (build_enum_full_names t2) t2)

/-- The AST-rewriting portion of pb_models_to_pydantic_models (the pipeline
applied between ast.parse and ast.unparse): suffix normalization, Config
removal, import injection, IsoDateString replacement, registry extraction and
Collection removal, relation resolution, synthetic-class removal, enum
merging, union simplification.  Fetching the schema, the generator
subprocesses and the output file write are external collaborators. -/
def pb_models_to_pydantic_models (pb_schema_with_references : List WiredCollection)
    (tree : StmtList) : Except String StmtList :=
  let t1 := replace_class_suffixes [("Record", ""), ("Records", "")] tree
  let t2 := remove_config_classes t1
  let t3 := add_imports [Stmt.importFrom "datetime" ["datetime"]] t2
  let t4 := replace_types [("IsoDateString", "datetime")] t3
  let classnames := get_classnames_original_collection_names t4
  let t5 := remove_classes t4 ["Collection"]
  match replace_relation_annotations pb_schema_with_references classnames t5 with
  | .error msg => .error msg
  | .ok t6 =>
    let t7 := remove_classes t6 ["TypedPocketBase", "CollectionResponses", "RecordIdString"]
    let t8 := remove_classes_with_suffixes t7 ["Response"]
    let t9 := merge_all_enum_classes t8
    simplify_enum_union_annotations t9

mutual
/-- Does the placeholder name RecordIdString occur at a position the
recursive substitution reaches (names, subscript values and slices, tuple and
list elements)? -/
def reaches_rid : PExpr → Bool
  | .nameE id => id = "RecordIdString"
  | .subE v s => reaches_rid v || reaches_rid s
  | .tupE es => reaches_rid_list es
  | .listE es => reaches_rid_list es
  | .attrE _ _ => false
  | .strC _ => false
/-- reaches_rid over an expression list. -/
def reaches_rid_list : PExprList → Bool
  | .nil => false
  | .cons e es => reaches_rid e || reaches_rid_list es
end

mutual
/-- Is an expression free of attribute nodes (the TypeExpr fragment of the
specification: named types, generics, tuples and lists)? -/
def attr_free : PExpr → Bool
  | .nameE _ => true
  | .attrE _ _ => false
  | .subE v s => attr_free v && attr_free s
  | .tupE es => attr_free_list es
  | .listE es => attr_free_list es
  | .strC _ => true
/-- attr_free over an expression list. -/
def attr_free_list : PExprList → Bool
  | .nil => true
  | .cons e es => attr_free e && attr_free_list es
end

mutual
/-- Does an expression contain no occurrence of the name RecordIdString at
any nesting depth? -/
def no_rid : PExpr → Bool
  | .nameE id => !(id = "RecordIdString")
  | .attrE v _ => no_rid v
  | .subE v s => no_rid v && no_rid s
  | .tupE es => no_rid_list es
  | .listE es => no_rid_list es
  | .strC _ => true
/-- no_rid over an expression list. -/
def no_rid_list : PExprList → Bool
  | .nil => true
  | .cons e es => no_rid e && no_rid_list es
end

/-- Does every field annotation declared in this class body (directly or in a
nested class) satisfy the predicate? -/
def body_anns_all (p : PExpr → Bool) : StmtList → Bool
  | .nil => true
  | .cons s rest =>
    (match s with
     | .annAssign _ anno => p anno
     | .classDef _ _ body => body_anns_all p body
     | _ => true) && body_anns_all p rest

/-- Does every field annotation declared inside a class of the tree satisfy
the predicate?  (Annotated assignments at module level are outside every
class and are not rewritten by relation resolution.) -/
def class_anns_all (p : PExpr → Bool) : StmtList → Bool
  | .nil => true
  | .cons s rest =>
    (match s with
     | .classDef _ _ body => body_anns_all p body
     | _ => true) && class_anns_all p rest

/-- Deduplication of a key list keeping first occurrences, phrased against an
accumulator of already seen keys; the reference function the union collapse
is compared with. -/
def dedup_first_aux (seen : List String) : List String → List String
  | [] => []
  | k :: rest =>
    if seen.any (fun x => x = k) then dedup_first_aux seen rest
    else k :: dedup_first_aux (seen ++ [k]) rest

/-- Deduplication of a key list keeping first occurrences. -/
def dedup_first (l : List String) : List String :=
  dedup_first_aux [] l

/-- The innermost named type of an annotation.  Modelled from the spec:
registry extraction is described as recording the innermost Named type of
each Collection field annotation, unwrapping generic wrappers; this function
follows those words (unwrapping through arbitrarily many subscript levels)
and is compared against the extraction the code performs. -/
def spec_innermost_named : PExpr → Option String
  | .nameE id => some id
  | .subE _ s => spec_innermost_named s
  | _ => none

/-- Is there a top-level class of the given name. -/
def has_top_class (tree : StmtList) (n : String) : Bool :=
  (tree.toListS).any
    (fun s =>
      match s with
      | .classDef cn _ _ => cn = n
      | _ => false)

/-- A registry none of whose entries maps a collection to a class that is
itself named like the placeholder type. -/
def benign_registry (classnames : List (String × Option String)) : Prop :=
  ∀ p ∈ classnames, p.2 ≠ some "RecordIdString"

/-- The three schema/generator mismatches of relation resolution: the owning
class has no reverse registry entry; the owning collection is found but lacks
a field of the given name; or the field resolves to a relation target with no
registry entry. -/
def resolution_bad (pb_schema_with_references : List WiredCollection)
    (classnames : List (String × Option String))
    (field_name parent_class : String) : Prop :=
  rev_dict_get classnames parent_class = none ∨
  (∃ ocn ent,
    rev_dict_get classnames parent_class = some ocn ∧
    pb_schema_with_references.find? (fun x => x.name = ocn) = some ent ∧
    ent.fields.find? (fun fd => fd.name = field_name) = none) ∨
  (∃ ocn ent fd tgt,
    rev_dict_get classnames parent_class = some ocn ∧
    pb_schema_with_references.find? (fun x => x.name = ocn) = some ent ∧
    ent.fields.find? (fun fd => fd.name = field_name) = some fd ∧
    fd.collectionRef = some tgt ∧
    dict_get classnames tgt.name = none)

/-- The Author collection of the specification scenario. -/
def authorC : PBCollection := ⟨"c1", "Author", [⟨"name", "text", none⟩]⟩

/-- The Book collection of the specification scenario: one relation field
author targeting collection id c1. -/
def bookC : PBCollection := ⟨"c2", "Book", [⟨"author", "relation", some "c1"⟩]⟩

/-- The wired two-collection schema of the scenario. -/
def wired1 : List WiredCollection := wire_pbschema_references [authorC, bookC]

/-- The registry of the scenario: both entity names map to their class
names. -/
def reg1 : List (String × Option String) := [("Author", some "Author"), ("Book", some "Book")]

/-- The declaration tree of the scenario: class Book with field
author: Optional[RecordIdString]. -/
def tree1 : StmtList := SL [Stmt.classDef "Book" (EL [PExpr.nameE "BaseModel"])
  (SL [Stmt.annAssign "author" (PExpr.subE (PExpr.nameE "Optional") (PExpr.nameE "RecordIdString"))])]

/-- A registry that maps the Author collection to a class literally named
RecordIdString (as arises from a Collection field annotated
RecordIdStringRecord). -/
def reg2 : List (String × Option String) :=
  [("Author", some "RecordIdString"), ("Book", some "Book")]

/-- A Book collection whose author relation targets collection id c9, which
is not among the fetched collections, so wiring leaves it unresolved. -/
def bookC4 : PBCollection := ⟨"c2", "Book", [⟨"author", "relation", some "c9"⟩]⟩

/-- The wired schema with the unresolved relation. -/
def wired4 : List WiredCollection := wire_pbschema_references [authorC, bookC4]

/-- Enum-merge scenario input: fragments Status1 with members A, B and
Status2 with members B, C, a class Owner referencing both in a Union, and a
later class Other referencing Status2. -/
def tree7 : StmtList := SL [
  Stmt.classDef "Status1" (EL [PExpr.nameE "Enum"])
    (SL [Stmt.assign ["A"] (PExpr.strC "a"), Stmt.assign ["B"] (PExpr.strC "b")]),
  Stmt.classDef "Status2" (EL [PExpr.nameE "Enum"])
    (SL [Stmt.assign ["B"] (PExpr.strC "bb"), Stmt.assign ["C"] (PExpr.strC "c")]),
  Stmt.classDef "Owner" (EL [PExpr.nameE "BaseModel"])
    (SL [Stmt.annAssign "status"
      (PExpr.subE (PExpr.nameE "Union")
        (PExpr.tupE (EL [PExpr.nameE "Status1", PExpr.nameE "Status2"])))]),
  Stmt.classDef "Other" (EL [PExpr.nameE "BaseModel"])
    (SL [Stmt.annAssign "s2" (PExpr.nameE "Status2")])]

/-- Expected enum-merge output: one merged Status enum with exactly the
members A, B, C (B carrying the later fragment value), nested at the front of
Owner, fragments deleted, every reference rewritten to Status. -/
def tree7_merged : StmtList := SL [
  Stmt.classDef "Owner" (EL [PExpr.nameE "BaseModel"]) (SL [
    Stmt.classDef "Status" (EL [PExpr.nameE "Enum"])
      (SL [Stmt.assign ["A"] (PExpr.strC "a"), Stmt.assign ["B"] (PExpr.strC "bb"),
           Stmt.assign ["C"] (PExpr.strC "c")]),
    Stmt.annAssign "status"
      (PExpr.subE (PExpr.nameE "Union")
        (PExpr.tupE (EL [PExpr.nameE "Status", PExpr.nameE "Status"])))]),
  Stmt.classDef "Other" (EL [PExpr.nameE "BaseModel"])
    (SL [Stmt.annAssign "s2" (PExpr.nameE "Status")])]

/-- Union-collapse scenario input: Owner with nested enum Status and two
union annotations containing duplicate qualified members. -/
def tree8 : StmtList := SL [
  Stmt.classDef "Owner" (EL [PExpr.nameE "BaseModel"]) (SL [
    Stmt.classDef "Status" (EL [PExpr.nameE "Enum"]) (SL [Stmt.assign ["A"] (PExpr.strC "a")]),
    Stmt.annAssign "f"
      (PExpr.subE (PExpr.nameE "Union")
        (PExpr.tupE (EL [PExpr.attrE (PExpr.nameE "Owner") "Status",
          PExpr.attrE (PExpr.nameE "Owner") "Status", PExpr.nameE "OtherType"]))),
    Stmt.annAssign "g"
      (PExpr.subE (PExpr.nameE "Union")
        (PExpr.tupE (EL [PExpr.attrE (PExpr.nameE "Owner") "Status",
          PExpr.attrE (PExpr.nameE "Owner") "Status"])))])]

/-- Expected union-collapse output: the duplicate member collapsed once in f,
and g reduced to the bare qualified type. -/
def tree8_collapsed : StmtList := SL [
  Stmt.classDef "Owner" (EL [PExpr.nameE "BaseModel"]) (SL [
    Stmt.classDef "Status" (EL [PExpr.nameE "Enum"]) (SL [Stmt.assign ["A"] (PExpr.strC "a")]),
    Stmt.annAssign "f"
      (PExpr.subE (PExpr.nameE "Union")
        (PExpr.tupE (EL [PExpr.attrE (PExpr.nameE "Owner") "Status", PExpr.nameE "OtherType"]))),
    Stmt.annAssign "g" (PExpr.attrE (PExpr.nameE "Owner") "Status")])]

/-- The Book collection of the full-pipeline scenario, with a relation, a
date field and a select field. -/
def bookC9 : PBCollection :=
  ⟨"c2", "Book", [⟨"author", "relation", some "c1"⟩, ⟨"created", "date", none⟩,
    ⟨"status", "select", none⟩]⟩

/-- The wired schema of the full-pipeline scenario. -/
def schema9 : List WiredCollection := wire_pbschema_references [authorC, bookC9]

/-- A representative generated declaration tree, as the generator chain
emits it: an import, two enum fragments, the RecordIdString and IsoDateString
synthetic classes, Record-suffixed entity classes (one with a nested Config
and a relation placeholder), and the Collection index class. -/
def tree9 : StmtList := SL [
  Stmt.importFrom "pydantic" ["BaseModel"],
  Stmt.classDef "Status1" (EL [PExpr.nameE "Enum"]) (SL [Stmt.assign ["A"] (PExpr.strC "a")]),
  Stmt.classDef "Status2" (EL [PExpr.nameE "Enum"]) (SL [Stmt.assign ["B"] (PExpr.strC "b")]),
  Stmt.classDef "RecordIdString" (EL [PExpr.nameE "str"]) (SL []),
  Stmt.classDef "IsoDateString" (EL [PExpr.nameE "str"]) (SL []),
  Stmt.classDef "AuthorRecord" (EL [PExpr.nameE "BaseModel"])
    (SL [Stmt.annAssign "name" (PExpr.nameE "str")]),
  Stmt.classDef "BookRecord" (EL [PExpr.nameE "BaseModel"]) (SL [
    Stmt.annAssign "author" (PExpr.subE (PExpr.nameE "Optional") (PExpr.nameE "RecordIdString")),
    Stmt.annAssign "created" (PExpr.nameE "IsoDateString"),
    Stmt.annAssign "status"
      (PExpr.subE (PExpr.nameE "Union")
        (PExpr.tupE (EL [PExpr.nameE "Status1", PExpr.nameE "Status2"]))),
    Stmt.classDef "Config" (EL []) (SL [])]),
  Stmt.classDef "Collection" (EL [PExpr.nameE "BaseModel"]) (SL [
    Stmt.annAssign "Author" (PExpr.nameE "AuthorRecord"),
    Stmt.annAssign "Book" (PExpr.nameE "BookRecord")])]

/-- The pipeline output for tree9 (checked by the theorems below): suffixes
stripped, Config and synthetic classes gone, the datetime import injected,
the relation resolved to Author, IsoDateString replaced, the merged Status
enum nested in Book and its union collapsed to the qualified type. -/
def tree9_out : StmtList := SL [
  Stmt.importFrom "pydantic" ["BaseModel"],
  Stmt.importFrom "datetime" ["datetime"],
  Stmt.classDef "Author" (EL [PExpr.nameE "BaseModel"])
    (SL [Stmt.annAssign "name" (PExpr.nameE "str")]),
  Stmt.classDef "Book" (EL [PExpr.nameE "BaseModel"]) (SL [
    Stmt.classDef "Status" (EL [PExpr.nameE "Enum"])
      (SL [Stmt.assign ["A"] (PExpr.strC "a"), Stmt.assign ["B"] (PExpr.strC "b")]),
    Stmt.annAssign "author" (PExpr.subE (PExpr.nameE "Optional") (PExpr.nameE "Author")),
    Stmt.annAssign "created" (PExpr.nameE "datetime"),
    Stmt.annAssign "status" (PExpr.attrE (PExpr.nameE "Book") "Status")])]

/-- Union annotations with duplicated members that are not enumeration
types at all (datetime, int, str), in a tree containing no enums. -/
def tree10 : StmtList := SL [Stmt.classDef "M" (EL [PExpr.nameE "BaseModel"]) (SL [
  Stmt.annAssign "f"
    (PExpr.subE (PExpr.nameE "Union")
      (PExpr.tupE (EL [PExpr.nameE "datetime", PExpr.nameE "datetime", PExpr.nameE "str"]))),
  Stmt.annAssign "g"
    (PExpr.subE (PExpr.nameE "Union")
      (PExpr.tupE (EL [PExpr.nameE "int", PExpr.nameE "int"])))])]

/-- Expected output for tree10: duplicates collapsed although no member is an
enum, and the two-member duplicate union reduced to the bare type. -/
def tree10_out : StmtList := SL [Stmt.classDef "M" (EL [PExpr.nameE "BaseModel"]) (SL [
  Stmt.annAssign "f"
    (PExpr.subE (PExpr.nameE "Union")
      (PExpr.tupE (EL [PExpr.nameE "datetime", PExpr.nameE "str"]))),
  Stmt.annAssign "g" (PExpr.nameE "int")])]

/-- A doubly wrapped Collection field annotation Optional[List[XRecord]],
whose innermost named type is XRecord. -/
def c6_anno : PExpr :=
  PExpr.subE (PExpr.nameE "Optional") (PExpr.subE (PExpr.nameE "List") (PExpr.nameE "XRecord"))

/-- A Collection class with the doubly wrapped field annotation. -/
def tree6 : StmtList := SL [Stmt.classDef "Collection" (EL [PExpr.nameE "BaseModel"])
  (SL [Stmt.annAssign "x" c6_anno])]

/-- The annotated field names of a class body, in order (the keys the
registry extraction writes). -/
def ann_targets (body : StmtList) : List String :=
  (body.toListS).filterMap
    (fun s =>
      match s with
      | .annAssign t _ => some t
      | _ => none)

/-- The registry pairs contributed by a class body in order: each annotated
field name with the Record-stripped one-level extracted type name. -/
def ann_pairs (body : StmtList) : List (String × Option String) :=
  (body.toListS).filterMap
    (fun s =>
      match s with
      | .annAssign t anno => some (t, strip_record (extract_type_name anno))
      | _ => none)

/-!
Theorems.  Each claim of the specification is settled by exactly one theorem
below; shared helper lemmas precede them.
-/

/-- C1: for the two-entity schema in which Book has a relation field author
targeting Author (collection id c1), running relation resolution on a tree
declaring class Book with field author: Optional[RecordIdString] and a
registry mapping both entity names to their class names produces
author: Optional[Author]: the placeholder is replaced by the target entity
class name and the Optional wrapper is preserved. -/
theorem c1_relation_scenario_resolved :
    replace_relation_annotations wired1 reg1 tree1 =
      Except.ok (SL [Stmt.classDef "Book" (EL [PExpr.nameE "BaseModel"])
        (SL [Stmt.annAssign "author"
          (PExpr.subE (PExpr.nameE "Optional") (PExpr.nameE "Author"))])]) := by
  rfl

/-- C4: the code does not treat an unresolved relation conservatively.  For
the wired schema in which Book.author's collectionId c9 resolves to no
collection (so collectionRef is absent, first conjunct), relation resolution
subscripts the absent collectionRef and aborts with a TypeError instead of
leaving the placeholder annotation unchanged (second conjunct). -/
theorem c4_unresolved_relation_crashes :
    wired4 = [⟨"c1", "Author", [⟨"name", "text", none, none⟩]⟩,
      ⟨"c2", "Book", [⟨"author", "relation", some "c9", none⟩]⟩] ∧
    replace_relation_annotations wired4 reg1 tree1 =
      Except.error "TypeError: NoneType collectionRef is not subscriptable" :=
  ⟨rfl, rfl⟩

/-- C7: enum merging on the fragment scenario: Status1 with members A, B and
Status2 with members B, C merge into a single declaration with exactly the
three members A, B, C (the later fragment value winning for B), the original
fragments are deleted, the merged declaration is nested inside Owner (the
first top-level class in declaration order referencing a fragment), and every
reference to Status1 or Status2 anywhere in the tree is rewritten to
Status. -/
theorem c7_enum_merge_scenario :
    merge_all_enum_classes tree7 = tree7_merged := by
  rfl

/-- C8: union simplification collapses duplicate occurrences of the same
qualified enumeration type: Union[Owner.Status, Owner.Status, OtherType]
becomes Union[Owner.Status, OtherType], and Union[Owner.Status, Owner.Status]
becomes the bare Owner.Status with no one-argument Union left. -/
theorem c8_union_collapse_scenario :
    simplify_enum_union_annotations tree8 = Except.ok tree8_collapsed := by
  rfl

/-- C9: the pipeline is not idempotent.  On the representative tree9 the
pipeline produces tree9_out (first conjunct), but running the pipeline again
on tree9_out does not reproduce tree9_out (second conjunct): the import
injection pass inserts a second copy of the datetime import. -/
theorem c9_counterexample :
    pb_models_to_pydantic_models schema9 tree9 = Except.ok tree9_out ∧
    pb_models_to_pydantic_models schema9 tree9_out ≠ Except.ok tree9_out := by
  refine ⟨by rfl, ?_⟩
  intro h
  have h2 : pb_models_to_pydantic_models schema9 tree9_out =
      Except.ok (add_imports [Stmt.importFrom "datetime" ["datetime"]] tree9_out) := by rfl
  rw [h2] at h
  exact absurd (Except.ok.inj h) (by decide)

/-- C9 amended: on its own output the pipeline makes exactly one further
change: the second run equals the first output with a duplicate datetime
importFrom inserted by add_imports; every other pass finds no further work. -/
theorem c9_second_run_adds_import :
    pb_models_to_pydantic_models schema9 tree9 = Except.ok tree9_out ∧
    pb_models_to_pydantic_models schema9 tree9_out =
      Except.ok (add_imports [Stmt.importFrom "datetime" ["datetime"]] tree9_out) :=
  ⟨by rfl, by rfl⟩

/-- The keys of the seen dict are unchanged by an upsert of a present key and
extended by an absent one. -/
theorem seen_set_keys (d : List (String × PExpr)) (k : String) (v : PExpr) :
    (seen_set d k v).map Prod.fst =
      if d.any (fun p => p.1 = k) then d.map Prod.fst else d.map Prod.fst ++ [k] := by
  unfold seen_set
  split
  · rw [List.map_map]
    refine List.map_congr_left ?_
    intro p _
    by_cases h : p.1 = k
    · simp [h]
    · simp [h]
  · simp

/-- Testing a key against the key list is testing it against the dict. -/
theorem seen_any_fst (d : List (String × PExpr)) (k : String) :
    (d.map Prod.fst).any (fun x => x = k) = d.any (fun p => p.1 = k) := by
  induction d with
  | nil => rfl
  | cons p d ih => simp only [List.map_cons, List.any_cons, ih]

/-- The key list of the seen dict built over a member list is the
first-occurrence deduplication of the members' rendered texts. -/
theorem seen_fold_keys (es : List PExpr) :
    ∀ d : List (String × PExpr),
      (seen_fold d es).map Prod.fst =
        d.map Prod.fst ++ dedup_first_aux (d.map Prod.fst) (es.map unparseE) := by
  induction es with
  | nil => intro d; simp [seen_fold, dedup_first_aux]
  | cons e es ih =>
    intro d
    show (seen_fold (seen_set d (unparseE e) e) es).map Prod.fst = _
    rw [ih]
    rw [seen_set_keys]
    by_cases h : d.any (fun p => p.1 = unparseE e)
    · simp only [h, if_true]
      show _ = d.map Prod.fst ++ dedup_first_aux (d.map Prod.fst) (unparseE e :: es.map unparseE)
      rw [dedup_first_aux]
      rw [seen_any_fst, h]
      simp
    · simp only [h, if_false]
      show _ = d.map Prod.fst ++ dedup_first_aux (d.map Prod.fst) (unparseE e :: es.map unparseE)
      rw [dedup_first_aux]
      rw [seen_any_fst]
      simp only [h, Bool.false_eq_true, if_false]
      rw [List.append_assoc]
      rfl

/-- Every entry of the seen dict renders to its own key. -/
theorem seen_fold_inv (es : List PExpr) :
    ∀ d : List (String × PExpr), (∀ p ∈ d, unparseE p.2 = p.1) →
      ∀ p ∈ seen_fold d es, unparseE p.2 = p.1 := by
  induction es with
  | nil => intro d hd p hp; exact hd p hp
  | cons e es ih =>
    intro d hd p hp
    refine ih (seen_set d (unparseE e) e) ?_ p hp
    intro q hq
    unfold seen_set at hq
    split at hq
    · rcases List.mem_map.mp hq with ⟨r, hr, hrq⟩
      by_cases h : r.1 = unparseE e
      · simp only [h, if_true] at hrq
        rw [← hrq]
      · simp only [h, if_false] at hrq
        rw [← hrq]
        exact hd r hr
    · rcases List.mem_append.mp hq with h | h
      · exact hd q h
      · rcases List.mem_singleton.mp h with rfl
        rfl

/-- C10: the union collapse deduplicates by rendered source text for every
member type, not only for nested enumeration types: the rendered texts of the
collapsed members of any Union member list are exactly the first-occurrence
deduplication of the rendered texts of all members (first conjunct); on a
tree with no enumeration at all, duplicate datetime members collapse to one
and a duplicated int union becomes the bare int (second conjunct). -/
theorem c10_union_dedup_by_text :
    (∀ elts : List PExpr,
      (collapse_elts elts).map unparseE = dedup_first (elts.map unparseE)) ∧
    simplify_enum_union_annotations tree10 = Except.ok tree10_out := by
  constructor
  · intro elts
    have h1 := seen_fold_keys elts []
    have h2 : ∀ p ∈ seen_fold [] elts, unparseE p.2 = p.1 := by
      refine seen_fold_inv elts [] ?_
      intro p hp
      cases hp
    unfold collapse_elts dedup_first
    rw [List.map_map]
    have h3 : (seen_fold [] elts).map (unparseE ∘ Prod.snd) = (seen_fold [] elts).map Prod.fst := by
      refine List.map_congr_left ?_
      intro p hp
      exact h2 p hp
    rw [h3, h1]
    simp
  · rfl

/-- Wiring never changes the underlying field data. -/
theorem wire_field_unwire (S : List PBCollection) (f : PBField) :
    unwire_field (wire_field S f) = f := by
  unfold wire_field
  split
  · split
    · split <;> rfl
    · rfl
  · rfl

/-- C5: schema wiring gives every relation field whose collectionId is the id
of some collection the full target record as collectionRef (with the later
collection winning the id lookup), leaves every relation field whose
collectionId matches no id (and every field without a collectionId) without a
collectionRef, leaves non-relation fields without a collectionRef, and never
alters the underlying field data or the collection list structure. -/
theorem c5_wire_spec (pb_schema : List PBCollection) :
    ((wire_pbschema_references pb_schema).map unwire_collection = pb_schema) ∧
    (∀ c ∈ pb_schema,
      (⟨c.id, c.name, c.fields.map (wire_field pb_schema)⟩ : WiredCollection) ∈
        wire_pbschema_references pb_schema) ∧
    (∀ f : PBField, f.type ≠ "relation" →
      wire_field pb_schema f = ⟨f.name, f.type, f.collectionId, none⟩) ∧
    (∀ f : PBField, ∀ cid tgt, f.type = "relation" → f.collectionId = some cid →
      lookup_by_id pb_schema cid = some tgt →
      wire_field pb_schema f = ⟨f.name, f.type, f.collectionId, some tgt⟩ ∧
        tgt ∈ pb_schema ∧ tgt.id = cid) ∧
    (∀ f : PBField, f.type = "relation" →
      (∀ t ∈ pb_schema, f.collectionId ≠ some t.id) →
      wire_field pb_schema f = ⟨f.name, f.type, f.collectionId, none⟩) := by
  refine ⟨?_, ?_, ?_, ?_, ?_⟩
  · unfold wire_pbschema_references
    rw [List.map_map]
    have hcong : ∀ c ∈ pb_schema,
        (unwire_collection ∘ fun col =>
          (⟨col.id, col.name, col.fields.map (wire_field pb_schema)⟩ : WiredCollection)) c = c := by
      intro c _
      show unwire_collection ⟨c.id, c.name, c.fields.map (wire_field pb_schema)⟩ = c
      unfold unwire_collection
      simp only [List.map_map]
      have h2 : c.fields.map (unwire_field ∘ wire_field pb_schema) = c.fields := by
        have h3 : c.fields.map (unwire_field ∘ wire_field pb_schema) = c.fields.map id :=
          List.map_congr_left (fun f _ => wire_field_unwire pb_schema f)
        rw [h3, List.map_id]
      rw [h2]
    rw [List.map_congr_left hcong]
    simp
  · intro c hc
    exact List.mem_map_of_mem _ hc
  · intro f hf
    unfold wire_field
    rw [if_neg hf]
  · intro f cid tgt ht hc hl
    refine ⟨?_, ?_, ?_⟩
    · unfold wire_field
      rw [if_pos ht]
      simp only [hc, hl]
    · have hm := List.mem_of_find?_eq_some hl
      exact List.mem_reverse.mp hm
    · have hp := List.find?_some hl
      exact of_decide_eq_true hp
  · intro f ht hnone
    unfold wire_field
    rw [if_pos ht]
    cases hc : f.collectionId with
    | none => rfl
    | some cid =>
      have hl : lookup_by_id pb_schema cid = none := by
        unfold lookup_by_id
        rw [List.find?_eq_none]
        intro t htm
        simp only [decide_eq_true_eq]
        intro hid
        exact hnone t (List.mem_reverse.mp htm) (by rw [hc, hid])
      simp only [hl]

/-- Witness for C5 at the two-collection schema: the author relation field is
wired to the Author record, a non-relation field and an unresolvable relation
field stay unwired. -/
theorem c5_wire_spec_witness :
    wire_field [authorC, bookC] ⟨"author", "relation", some "c1"⟩ =
      ⟨"author", "relation", some "c1", some authorC⟩ ∧
    authorC ∈ [authorC, bookC] ∧ authorC.id = "c1" ∧
    wire_field [authorC, bookC] ⟨"name", "text", none⟩ = ⟨"name", "text", none, none⟩ ∧
    wire_field [authorC, bookC] ⟨"author", "relation", some "c9"⟩ =
      ⟨"author", "relation", some "c9", none⟩ := by
  obtain ⟨h1, h2, h3, h4, h5⟩ := c5_wire_spec [authorC, bookC]
  have ha := h4 ⟨"author", "relation", some "c1"⟩ "c1" authorC rfl rfl (by decide)
  refine ⟨ha.1, ha.2.1, ha.2.2, ?_, ?_⟩
  · exact h3 ⟨"name", "text", none⟩ (by decide)
  · exact h5 ⟨"author", "relation", some "c9"⟩ rfl (by decide)

/-- Upserting an absent key appends it. -/
theorem dict_set_absent (d : List (String × Option String)) (k : String) (v : Option String)
    (h : d.any (fun p => p.1 = k) = false) : dict_set d k v = d ++ [(k, v)] := by
  unfold dict_set
  simp only [h]
  rfl

/-- Registry extraction over a body with pairwise distinct field names whose
names are also absent from the accumulator appends exactly the body's pairs. -/
theorem collect_classnames_append : ∀ (body : StmtList) (acc : List (String × Option String)),
    (ann_targets body).Nodup →
    (∀ p ∈ acc, p.1 ∉ ann_targets body) →
    collect_classnames body acc = acc ++ ann_pairs body
  | .nil, acc, _, _ => by
    simp [collect_classnames, ann_pairs, StmtList.toListS]
  | .cons s rest, acc, hnd, hdisj => by
    cases s with
    | annAssign t anno =>
      have htargets : ann_targets (.cons (.annAssign t anno) rest) = t :: ann_targets rest := by
        simp [ann_targets, StmtList.toListS]
      rw [htargets] at hnd hdisj
      rw [List.nodup_cons] at hnd
      have hset : dict_set acc t (strip_record (extract_type_name anno)) =
          acc ++ [(t, strip_record (extract_type_name anno))] := by
        apply dict_set_absent
        rw [List.any_eq_false]
        intro p hp
        simp only [decide_eq_true_eq]
        intro heq
        exact hdisj p hp (heq ▸ List.mem_cons_self t (ann_targets rest))
      show collect_classnames rest (dict_set acc t (strip_record (extract_type_name anno))) = _
      rw [hset]
      have ih := collect_classnames_append rest
        (acc ++ [(t, strip_record (extract_type_name anno))]) hnd.2 ?_
      · rw [ih]
        have hpairs : ann_pairs (.cons (.annAssign t anno) rest) =
            (t, strip_record (extract_type_name anno)) :: ann_pairs rest := by
          simp [ann_pairs, StmtList.toListS]
        rw [hpairs, List.append_assoc]
        rfl
      · intro p hp
        rcases List.mem_append.mp hp with h | h
        · intro hmem
          exact hdisj p h (List.mem_cons_of_mem t hmem)
        · rcases List.mem_singleton.mp h with rfl
          exact hnd.1
    | classDef n b bd =>
      have htargets : ann_targets (.cons (.classDef n b bd) rest) = ann_targets rest := by
        simp [ann_targets, StmtList.toListS]
      have hpairs : ann_pairs (.cons (.classDef n b bd) rest) = ann_pairs rest := by
        simp [ann_pairs, StmtList.toListS]
      rw [htargets] at hnd hdisj
      show collect_classnames rest acc = _
      rw [collect_classnames_append rest acc hnd hdisj, hpairs]
    | importFrom mo ns =>
      have htargets : ann_targets (.cons (.importFrom mo ns) rest) = ann_targets rest := by
        simp [ann_targets, StmtList.toListS]
      have hpairs : ann_pairs (.cons (.importFrom mo ns) rest) = ann_pairs rest := by
        simp [ann_pairs, StmtList.toListS]
      rw [htargets] at hnd hdisj
      show collect_classnames rest acc = _
      rw [collect_classnames_append rest acc hnd hdisj, hpairs]
    | assign ts v =>
      have htargets : ann_targets (.cons (.assign ts v) rest) = ann_targets rest := by
        simp [ann_targets, StmtList.toListS]
      have hpairs : ann_pairs (.cons (.assign ts v) rest) = ann_pairs rest := by
        simp [ann_pairs, StmtList.toListS]
      rw [htargets] at hnd hdisj
      show collect_classnames rest acc = _
      rw [collect_classnames_append rest acc hnd hdisj, hpairs]

/-- After removing the Collection class, no top-level class has that name. -/
theorem remove_collection_no_top :
    ∀ t : StmtList, has_top_class (remove_classes t ["Collection"]) "Collection" = false
  | .nil => rfl
  | .cons s rest => by
    cases s with
    | classDef n b body =>
      by_cases h : n = "Collection"
      · have : remove_classes (.cons (.classDef n b body) rest) ["Collection"] =
            remove_classes rest ["Collection"] := by
          simp [remove_classes, h]
        rw [this]
        exact remove_collection_no_top rest
      · have : remove_classes (.cons (.classDef n b body) rest) ["Collection"] =
            .cons (.classDef n b body) (remove_classes rest ["Collection"]) := by
          simp [remove_classes, h]
        rw [this]
        have hrec := remove_collection_no_top rest
        simp [has_top_class, StmtList.toListS, h] at hrec ⊢
        exact hrec
    | importFrom mo ns =>
      have : remove_classes (.cons (.importFrom mo ns) rest) ["Collection"] =
          .cons (.importFrom mo ns) (remove_classes rest ["Collection"]) := by
        simp [remove_classes]
      rw [this]
      have hrec := remove_collection_no_top rest
      simp [has_top_class, StmtList.toListS] at hrec ⊢
      exact hrec
    | annAssign t2 anno =>
      have : remove_classes (.cons (.annAssign t2 anno) rest) ["Collection"] =
          .cons (.annAssign t2 anno) (remove_classes rest ["Collection"]) := by
        simp [remove_classes]
      rw [this]
      have hrec := remove_collection_no_top rest
      simp [has_top_class, StmtList.toListS] at hrec ⊢
      exact hrec
    | assign ts v =>
      have : remove_classes (.cons (.assign ts v) rest) ["Collection"] =
          .cons (.assign ts v) (remove_classes rest ["Collection"]) := by
        simp [remove_classes]
      rw [this]
      have hrec := remove_collection_no_top rest
      simp [has_top_class, StmtList.toListS] at hrec ⊢
      exact hrec

/-- C6 counterexample: for the Collection field x: Optional[List[XRecord]]
the extraction maps x to no type name at all, although the innermost named
type of the annotation (Record-stripped) is X: the code unwraps exactly one
subscript level, not arbitrarily many as the claim states. -/
theorem c6_counterexample :
    get_classnames_original_collection_names tree6 = [("x", none)] ∧
    strip_record (spec_innermost_named c6_anno) = some "X" ∧
    get_classnames_original_collection_names tree6 ≠
      [("x", strip_record (spec_innermost_named c6_anno))] := by
  refine ⟨by rfl, by rfl, by decide⟩

/-- C6 amended: registry extraction maps each annotated field of the first
Collection class (with distinct field names) to the type name obtained by
unwrapping at most one subscript level, Record-stripped; on bare names and
one-level generic wrappers this is exactly the innermost named type, while
deeper nestings contribute no type name; and afterwards the Collection class
is removed from the top level. -/
theorem c6_registry_extraction (tree body : StmtList)
    (hfind : find_collection_class tree = some body)
    (hnd : (ann_targets body).Nodup) :
    get_classnames_original_collection_names tree = ann_pairs body ∧
    (∀ n : String, extract_type_name (PExpr.nameE n) = spec_innermost_named (PExpr.nameE n)) ∧
    (∀ (b : PExpr) (n : String),
      extract_type_name (PExpr.subE b (PExpr.nameE n)) =
        spec_innermost_named (PExpr.subE b (PExpr.nameE n))) ∧
    (∀ t : StmtList, has_top_class (remove_classes t ["Collection"]) "Collection" = false) := by
  refine ⟨?_, fun n => rfl, fun b n => rfl, remove_collection_no_top⟩
  unfold get_classnames_original_collection_names
  rw [hfind]
  have h := collect_classnames_append body [] hnd (by intro p hp; cases hp)
  show collect_classnames body [] = ann_pairs body
  rw [h]
  simp

/-- Witness for C6 amended at the representative generated tree: its
Collection class yields the expected registry. -/
theorem c6_registry_extraction_witness :
    get_classnames_original_collection_names tree9 =
      [("Author", some "Author"), ("Book", some "Book")] := by
  have h := c6_registry_extraction tree9
    (SL [Stmt.annAssign "Author" (PExpr.nameE "AuthorRecord"),
         Stmt.annAssign "Book" (PExpr.nameE "BookRecord")])
    (by rfl) (by decide)
  rw [h.1]
  rfl

/-- A successful placeholder resolution returns a Name drawn from the values
of the registry; under a benign registry it is never the placeholder name
again. -/
theorem resolve_rid_ok_no_rid (S : List WiredCollection)
    (reg : List (String × Option String)) (f c : String)
    (hreg : benign_registry reg) :
    ∀ e2, resolve_rid S reg f c = .ok e2 → no_rid e2 = true := by
  intro e2 hok
  unfold resolve_rid at hok
  cases h1 : rev_dict_get reg c with
  | none => rw [h1] at hok; simp at hok
  | some ocn =>
    rw [h1] at hok
    simp only [] at hok
    cases h2 : S.find? (fun x => x.name = ocn) with
    | none => rw [h2] at hok; simp at hok
    | some ent =>
      rw [h2] at hok
      simp only [] at hok
      cases h3 : ent.fields.find? (fun fd => fd.name = f) with
      | none => rw [h3] at hok; simp at hok
      | some fd =>
        rw [h3] at hok
        simp only [] at hok
        cases h4 : fd.collectionRef with
        | none => rw [h4] at hok; simp at hok
        | some tgt =>
          rw [h4] at hok
          simp only [] at hok
          cases h5 : dict_get reg tgt.name with
          | none => rw [h5] at hok; simp at hok
          | some tn =>
            rw [h5] at hok
            cases tn with
            | none => simp at hok
            | some cn =>
              simp only [Except.ok.injEq] at hok
              subst hok
              unfold dict_get at h5
              rcases Option.map_eq_some'.mp h5 with ⟨p, hfind, hp2⟩
              have hmem := List.mem_of_find?_eq_some hfind
              have hne := hreg p hmem
              rw [hp2] at hne
              have : ¬(cn = "RecordIdString") := by
                intro hcn
                exact hne (by rw [hcn])
              simp [no_rid, this]

/-- Under any of the three mismatch conditions, placeholder resolution
raises. -/
theorem resolve_rid_bad (S : List WiredCollection)
    (reg : List (String × Option String)) (f c : String)
    (hbad : resolution_bad S reg f c) :
    ∃ msg, resolve_rid S reg f c = .error msg := by
  unfold resolve_rid
  rcases hbad with h1 | ⟨ocn, ent, h1, h2, h3⟩ | ⟨ocn, ent, fd, tgt, h1, h2, h3, h4, h5⟩
  · simp only [h1]
    exact ⟨_, rfl⟩
  · simp only [h1, h2, h3]
    exact ⟨_, rfl⟩
  · simp only [h1, h2, h3, h4, h5]
    exact ⟨_, rfl⟩

mutual
/-- An annotation in which the placeholder is not reachable is returned
unchanged by the substitution (no base case fires, no error occurs). -/
theorem recursive_replace_no_reach (S : List WiredCollection)
    (reg : List (String × Option String)) (f c : String) :
    ∀ e : PExpr, reaches_rid e = false → recursive_replace S reg f c e = .ok e
  | .nameE id, h => by
    have hne : ¬(id = "RecordIdString") := by simpa [reaches_rid] using h
    simp [recursive_replace, hne]
  | .attrE v a, _ => by simp [recursive_replace]
  | .strC s, _ => by simp [recursive_replace]
  | .subE v s, h => by
    have hv : reaches_rid v = false := by
      simp only [reaches_rid, Bool.or_eq_false_iff] at h
      exact h.1
    have hs : reaches_rid s = false := by
      simp only [reaches_rid, Bool.or_eq_false_iff] at h
      exact h.2
    simp [recursive_replace, recursive_replace_no_reach S reg f c v hv,
      recursive_replace_no_reach S reg f c s hs]
  | .tupE es, h => by
    have hes : reaches_rid_list es = false := by simpa [reaches_rid] using h
    simp [recursive_replace, recursive_replace_list_no_reach S reg f c es hes]
  | .listE es, h => by
    have hes : reaches_rid_list es = false := by simpa [reaches_rid] using h
    simp [recursive_replace, recursive_replace_list_no_reach S reg f c es hes]
/-- List version of recursive_replace_no_reach. -/
theorem recursive_replace_list_no_reach (S : List WiredCollection)
    (reg : List (String × Option String)) (f c : String) :
    ∀ es : PExprList, reaches_rid_list es = false →
      recursive_replace_list S reg f c es = .ok es
  | .nil, _ => by simp [recursive_replace_list]
  | .cons e es, h => by
    have he : reaches_rid e = false := by
      simp only [reaches_rid_list, Bool.or_eq_false_iff] at h
      exact h.1
    have hes : reaches_rid_list es = false := by
      simp only [reaches_rid_list, Bool.or_eq_false_iff] at h
      exact h.2
    simp [recursive_replace_list, recursive_replace_no_reach S reg f c e he,
      recursive_replace_list_no_reach S reg f c es hes]
end

mutual
/-- Under a benign registry and on attribute-free annotations, a successful
substitution leaves no occurrence of the placeholder name at any depth. -/
theorem recursive_replace_ok_no_rid (S : List WiredCollection)
    (reg : List (String × Option String)) (f c : String)
    (hreg : benign_registry reg) :
    ∀ e e2 : PExpr, attr_free e = true →
      recursive_replace S reg f c e = .ok e2 → no_rid e2 = true
  | .nameE id, e2, _, hok => by
    by_cases h : id = "RecordIdString"
    · subst h
      simp only [recursive_replace, if_pos rfl] at hok
      exact resolve_rid_ok_no_rid S reg f c hreg e2 hok
    · simp only [recursive_replace, if_neg h, Except.ok.injEq] at hok
      subst hok
      simp [no_rid, h]
  | .attrE v a, e2, hfree, hok => by
    simp [attr_free] at hfree
  | .strC s, e2, _, hok => by
    simp only [recursive_replace, Except.ok.injEq] at hok
    subst hok
    rfl
  | .subE v s, e2, hfree, hok => by
    simp only [attr_free, Bool.and_eq_true] at hfree
    simp only [recursive_replace] at hok
    cases hv : recursive_replace S reg f c v with
    | error msg => rw [hv] at hok; simp at hok
    | ok v2 =>
      rw [hv] at hok
      simp only [] at hok
      cases hs : recursive_replace S reg f c s with
      | error msg => rw [hs] at hok; simp at hok
      | ok s2 =>
        rw [hs] at hok
        simp only [Except.ok.injEq] at hok
        subst hok
        have h1 := recursive_replace_ok_no_rid S reg f c hreg v v2 hfree.1 hv
        have h2 := recursive_replace_ok_no_rid S reg f c hreg s s2 hfree.2 hs
        simp [no_rid, h1, h2]
  | .tupE es, e2, hfree, hok => by
    simp only [attr_free] at hfree
    simp only [recursive_replace] at hok
    cases hes : recursive_replace_list S reg f c es with
    | error msg => rw [hes] at hok; simp at hok
    | ok es2 =>
      rw [hes] at hok
      simp only [Except.ok.injEq] at hok
      subst hok
      have h1 := recursive_replace_list_ok_no_rid S reg f c hreg es es2 hfree hes
      simp [no_rid, h1]
  | .listE es, e2, hfree, hok => by
    simp only [attr_free] at hfree
    simp only [recursive_replace] at hok
    cases hes : recursive_replace_list S reg f c es with
    | error msg => rw [hes] at hok; simp at hok
    | ok es2 =>
      rw [hes] at hok
      simp only [Except.ok.injEq] at hok
      subst hok
      have h1 := recursive_replace_list_ok_no_rid S reg f c hreg es es2 hfree hes
      simp [no_rid, h1]
/-- List version of recursive_replace_ok_no_rid. -/
theorem recursive_replace_list_ok_no_rid (S : List WiredCollection)
    (reg : List (String × Option String)) (f c : String)
    (hreg : benign_registry reg) :
    ∀ es es2 : PExprList, attr_free_list es = true →
      recursive_replace_list S reg f c es = .ok es2 → no_rid_list es2 = true
  | .nil, es2, _, hok => by
    simp only [recursive_replace_list, Except.ok.injEq] at hok
    subst hok
    rfl
  | .cons e es, es2, hfree, hok => by
    simp only [attr_free_list, Bool.and_eq_true] at hfree
    simp only [recursive_replace_list] at hok
    cases he : recursive_replace S reg f c e with
    | error msg => rw [he] at hok; simp at hok
    | ok e2 =>
      rw [he] at hok
      simp only [] at hok
      cases hes : recursive_replace_list S reg f c es with
      | error msg => rw [hes] at hok; simp at hok
      | ok es3 =>
        rw [hes] at hok
        simp only [Except.ok.injEq] at hok
        subst hok
        have h1 := recursive_replace_ok_no_rid S reg f c hreg e e2 hfree.1 he
        have h2 := recursive_replace_list_ok_no_rid S reg f c hreg es es3 hfree.2 hes
        simp [no_rid_list, h1, h2]
end

/-- Class-body level: a successful relation-resolution pass over a body whose
annotations are attribute-free leaves no placeholder occurrence in any
annotation of the result, nested classes included. -/
theorem rra_body_ok_no_rid (S : List WiredCollection)
    (reg : List (String × Option String)) (hreg : benign_registry reg) :
    ∀ (c : String) (body body2 : StmtList),
      body_anns_all attr_free body = true →
      rra_body S reg c body = .ok body2 →
      body_anns_all no_rid body2 = true
  | c, .nil, body2, _, hok => by
    simp only [rra_body, Except.ok.injEq] at hok
    subst hok
    rfl
  | c, .cons s rest, body2, hfree, hok => by
    cases s with
    | annAssign t anno =>
      simp only [body_anns_all, Bool.and_eq_true] at hfree
      simp only [rra_body] at hok
      cases ha : recursive_replace S reg t c anno with
      | error msg => rw [ha] at hok; simp at hok
      | ok a2 =>
        rw [ha] at hok
        simp only [] at hok
        cases hr : rra_body S reg c rest with
        | error msg => rw [hr] at hok; simp at hok
        | ok rest2 =>
          rw [hr] at hok
          simp only [Except.ok.injEq] at hok
          subst hok
          have h1 := recursive_replace_ok_no_rid S reg t c hreg anno a2 hfree.1 ha
          have h2 := rra_body_ok_no_rid S reg hreg c rest rest2 hfree.2 hr
          simp [body_anns_all, h1, h2]
    | classDef n b bd =>
      simp only [body_anns_all, Bool.and_eq_true] at hfree
      simp only [rra_body] at hok
      cases hb : rra_body S reg n bd with
      | error msg => rw [hb] at hok; simp at hok
      | ok bd2 =>
        rw [hb] at hok
        simp only [] at hok
        cases hr : rra_body S reg c rest with
        | error msg => rw [hr] at hok; simp at hok
        | ok rest2 =>
          rw [hr] at hok
          simp only [Except.ok.injEq] at hok
          subst hok
          have h1 := rra_body_ok_no_rid S reg hreg n bd bd2 hfree.1 hb
          have h2 := rra_body_ok_no_rid S reg hreg c rest rest2 hfree.2 hr
          simp [body_anns_all, h1, h2]
    | importFrom mo ns =>
      simp only [body_anns_all, Bool.and_eq_true] at hfree
      simp only [rra_body] at hok
      cases hr : rra_body S reg c rest with
      | error msg => rw [hr] at hok; simp at hok
      | ok rest2 =>
        rw [hr] at hok
        simp only [Except.ok.injEq] at hok
        subst hok
        have h2 := rra_body_ok_no_rid S reg hreg c rest rest2 hfree.2 hr
        simp [body_anns_all, h2]
    | assign ts v =>
      simp only [body_anns_all, Bool.and_eq_true] at hfree
      simp only [rra_body] at hok
      cases hr : rra_body S reg c rest with
      | error msg => rw [hr] at hok; simp at hok
      | ok rest2 =>
        rw [hr] at hok
        simp only [Except.ok.injEq] at hok
        subst hok
        have h2 := rra_body_ok_no_rid S reg hreg c rest rest2 hfree.2 hr
        simp [body_anns_all, h2]

/-- Module level version of rra_body_ok_no_rid. -/
theorem rra_top_ok_no_rid (S : List WiredCollection)
    (reg : List (String × Option String)) (hreg : benign_registry reg) :
    ∀ tree tree2 : StmtList,
      class_anns_all attr_free tree = true →
      replace_relation_annotations S reg tree = .ok tree2 →
      class_anns_all no_rid tree2 = true
  | .nil, tree2, _, hok => by
    simp only [replace_relation_annotations, Except.ok.injEq] at hok
    subst hok
    rfl
  | .cons s rest, tree2, hfree, hok => by
    cases s with
    | classDef n b bd =>
      simp only [class_anns_all, Bool.and_eq_true] at hfree
      simp only [replace_relation_annotations] at hok
      cases hb : rra_body S reg n bd with
      | error msg => rw [hb] at hok; simp at hok
      | ok bd2 =>
        rw [hb] at hok
        simp only [] at hok
        cases hr : replace_relation_annotations S reg rest with
        | error msg => rw [hr] at hok; simp at hok
        | ok rest2 =>
          rw [hr] at hok
          simp only [Except.ok.injEq] at hok
          subst hok
          have h1 := rra_body_ok_no_rid S reg hreg n bd bd2 hfree.1 hb
          have h2 := rra_top_ok_no_rid S reg hreg rest rest2 hfree.2 hr
          simp [class_anns_all, h1, h2]
    | importFrom mo ns =>
      simp only [class_anns_all, Bool.and_eq_true] at hfree
      simp only [replace_relation_annotations] at hok
      cases hr : replace_relation_annotations S reg rest with
      | error msg => rw [hr] at hok; simp at hok
      | ok rest2 =>
        rw [hr] at hok
        simp only [Except.ok.injEq] at hok
        subst hok
        have h2 := rra_top_ok_no_rid S reg hreg rest rest2 hfree.2 hr
        simp [class_anns_all, h2]
    | annAssign t anno =>
      simp only [class_anns_all, Bool.and_eq_true] at hfree
      simp only [replace_relation_annotations] at hok
      cases hr : replace_relation_annotations S reg rest with
      | error msg => rw [hr] at hok; simp at hok
      | ok rest2 =>
        rw [hr] at hok
        simp only [Except.ok.injEq] at hok
        subst hok
        have h2 := rra_top_ok_no_rid S reg hreg rest rest2 hfree.2 hr
        simp [class_anns_all, h2]
    | assign ts v =>
      simp only [class_anns_all, Bool.and_eq_true] at hfree
      simp only [replace_relation_annotations] at hok
      cases hr : replace_relation_annotations S reg rest with
      | error msg => rw [hr] at hok; simp at hok
      | ok rest2 =>
        rw [hr] at hok
        simp only [Except.ok.injEq] at hok
        subst hok
        have h2 := rra_top_ok_no_rid S reg hreg rest rest2 hfree.2 hr
        simp [class_anns_all, h2]

/-- C2 counterexample: with the registry reg2, which maps the Author entity
to a class literally named RecordIdString, every condition of the claim holds
for Book.author (the owning class Book has a reverse registry entry, the
matching schema field is a relation with a resolved collectionRef, and the
target entity Author has a registry entry), the pass succeeds, and yet the
resulting annotation still contains the name RecordIdString at nesting depth
one: the substitution itself can reintroduce the placeholder name. -/
theorem c2_counterexample :
    rev_dict_get reg2 "Book" = some "Book" ∧
    dict_get reg2 "Author" = some (some "RecordIdString") ∧
    replace_relation_annotations wired1 reg2 tree1 = Except.ok tree1 ∧
    class_anns_all no_rid tree1 = false := by
  refine ⟨by rfl, by rfl, by rfl, by rfl⟩

/-- C2 amended: after a successful relation-resolution pass over a tree whose
class-field annotations are attribute-free (the TypeExpr fragment of names,
subscripted generics, tuples and lists the specification describes), and
under a registry none of whose entries names the class RecordIdString itself,
no class-field annotation of the result contains the placeholder name at any
nesting depth: the substitution reaches every argument of every subscript and
every element of every tuple- and list-shaped construct. -/
theorem c2_no_placeholder_after_resolution (S : List WiredCollection)
    (reg : List (String × Option String)) (tree tree2 : StmtList)
    (hreg : benign_registry reg)
    (hfree : class_anns_all attr_free tree = true)
    (hok : replace_relation_annotations S reg tree = .ok tree2) :
    class_anns_all no_rid tree2 = true :=
  rra_top_ok_no_rid S reg hreg tree tree2 hfree hok

/-- Witness for C2 amended at the scenario inputs: the resolved Book tree
carries no placeholder occurrence. -/
theorem c2_no_placeholder_witness :
    class_anns_all no_rid (SL [Stmt.classDef "Book" (EL [PExpr.nameE "BaseModel"])
      (SL [Stmt.annAssign "author"
        (PExpr.subE (PExpr.nameE "Optional") (PExpr.nameE "Author"))])]) = true := by
  refine c2_no_placeholder_after_resolution wired1 reg1 tree1 _ ?_ ?_ ?_
  · intro p hp
    fin_cases hp <;> simp
  · rfl
  · rfl

mutual
/-- If the placeholder is reachable in an annotation and one of the three
mismatch conditions holds for the owning field, the substitution raises. -/
theorem recursive_replace_bad (S : List WiredCollection)
    (reg : List (String × Option String)) (f c : String)
    (hbad : resolution_bad S reg f c) :
    ∀ e : PExpr, reaches_rid e = true →
      ∃ msg, recursive_replace S reg f c e = .error msg
  | .nameE id, h => by
    have hid : id = "RecordIdString" := by simpa [reaches_rid] using h
    subst hid
    obtain ⟨msg, hmsg⟩ := resolve_rid_bad S reg f c hbad
    exact ⟨msg, by simp [recursive_replace, hmsg]⟩
  | .attrE v a, h => by simp [reaches_rid] at h
  | .strC s, h => by simp [reaches_rid] at h
  | .subE v s, h => by
    cases hv : reaches_rid v with
    | true =>
      obtain ⟨msg, hmsg⟩ := recursive_replace_bad S reg f c hbad v hv
      exact ⟨msg, by simp [recursive_replace, hmsg]⟩
    | false =>
      have hs : reaches_rid s = true := by
        simp only [reaches_rid, hv, Bool.false_or] at h
        exact h
      obtain ⟨msg, hmsg⟩ := recursive_replace_bad S reg f c hbad s hs
      exact ⟨msg, by
        simp [recursive_replace, recursive_replace_no_reach S reg f c v hv, hmsg]⟩
  | .tupE es, h => by
    have hes : reaches_rid_list es = true := by simpa [reaches_rid] using h
    obtain ⟨msg, hmsg⟩ := recursive_replace_list_bad S reg f c hbad es hes
    exact ⟨msg, by simp [recursive_replace, hmsg]⟩
  | .listE es, h => by
    have hes : reaches_rid_list es = true := by simpa [reaches_rid] using h
    obtain ⟨msg, hmsg⟩ := recursive_replace_list_bad S reg f c hbad es hes
    exact ⟨msg, by simp [recursive_replace, hmsg]⟩
/-- List version of recursive_replace_bad. -/
theorem recursive_replace_list_bad (S : List WiredCollection)
    (reg : List (String × Option String)) (f c : String)
    (hbad : resolution_bad S reg f c) :
    ∀ es : PExprList, reaches_rid_list es = true →
      ∃ msg, recursive_replace_list S reg f c es = .error msg
  | .cons e es, h => by
    cases he : reaches_rid e with
    | true =>
      obtain ⟨msg, hmsg⟩ := recursive_replace_bad S reg f c hbad e he
      exact ⟨msg, by simp [recursive_replace_list, hmsg]⟩
    | false =>
      have hes : reaches_rid_list es = true := by
        simp only [reaches_rid_list, he, Bool.false_or] at h
        exact h
      obtain ⟨msg, hmsg⟩ := recursive_replace_list_bad S reg f c hbad es hes
      exact ⟨msg, by
        simp [recursive_replace_list, recursive_replace_no_reach S reg f c e he, hmsg]⟩
end

/-- Class-body level: if some field declared directly in the body can reach
the placeholder and is subject to a mismatch condition, processing the body
raises (processing of any earlier statement either succeeds or raises
itself). -/
theorem rra_body_bad (S : List WiredCollection)
    (reg : List (String × Option String)) :
    ∀ (c : String) (body : StmtList) (f : String) (anno : PExpr),
      Stmt.annAssign f anno ∈ body.toListS →
      reaches_rid anno = true →
      resolution_bad S reg f c →
      ∃ msg, rra_body S reg c body = .error msg
  | c, .nil, f, anno, hmem, _, _ => by
    simp [StmtList.toListS] at hmem
  | c, .cons s rest, f, anno, hmem, hreach, hbad => by
    cases s with
    | annAssign t a2 =>
      rcases List.mem_cons.mp hmem with hhead | htail
      · have ht : t = f := by injection hhead.symm
        have ha : a2 = anno := by injection hhead.symm
        subst ht
        subst ha
        obtain ⟨msg, hmsg⟩ := recursive_replace_bad S reg t c hbad a2 hreach
        exact ⟨msg, by simp [rra_body, hmsg]⟩
      · cases ha : recursive_replace S reg t c a2 with
        | error msg => exact ⟨msg, by simp [rra_body, ha]⟩
        | ok a3 =>
          obtain ⟨msg, hmsg⟩ := rra_body_bad S reg c rest f anno htail hreach hbad
          exact ⟨msg, by simp [rra_body, ha, hmsg]⟩
    | classDef n b bd =>
      have htail : Stmt.annAssign f anno ∈ rest.toListS := by
        rcases List.mem_cons.mp hmem with hhead | htail
        · exact absurd hhead (by simp)
        · exact htail
      cases hb : rra_body S reg n bd with
      | error msg => exact ⟨msg, by simp [rra_body, hb]⟩
      | ok bd2 =>
        obtain ⟨msg, hmsg⟩ := rra_body_bad S reg c rest f anno htail hreach hbad
        exact ⟨msg, by simp [rra_body, hb, hmsg]⟩
    | importFrom mo ns =>
      have htail : Stmt.annAssign f anno ∈ rest.toListS := by
        rcases List.mem_cons.mp hmem with hhead | htail
        · exact absurd hhead (by simp)
        · exact htail
      obtain ⟨msg, hmsg⟩ := rra_body_bad S reg c rest f anno htail hreach hbad
      exact ⟨msg, by simp [rra_body, hmsg]⟩
    | assign ts v =>
      have htail : Stmt.annAssign f anno ∈ rest.toListS := by
        rcases List.mem_cons.mp hmem with hhead | htail
        · exact absurd hhead (by simp)
        · exact htail
      obtain ⟨msg, hmsg⟩ := rra_body_bad S reg c rest f anno htail hreach hbad
      exact ⟨msg, by simp [rra_body, hmsg]⟩

/-- Module level: if some top-level class declares a field whose annotation
can reach the placeholder and a mismatch condition holds for it, the whole
pass raises. -/
theorem rra_top_bad (S : List WiredCollection)
    (reg : List (String × Option String)) :
    ∀ (tree : StmtList) (cn : String) (bases : PExprList) (body : StmtList)
      (f : String) (anno : PExpr),
      Stmt.classDef cn bases body ∈ tree.toListS →
      Stmt.annAssign f anno ∈ body.toListS →
      reaches_rid anno = true →
      resolution_bad S reg f cn →
      ∃ msg, replace_relation_annotations S reg tree = .error msg
  | .nil, cn, bases, body, f, anno, hcls, _, _, _ => by
    simp [StmtList.toListS] at hcls
  | .cons s rest, cn, bases, body, f, anno, hcls, hfld, hreach, hbad => by
    cases s with
    | classDef n b bd =>
      rcases List.mem_cons.mp hcls with hhead | htail
      · have hn : n = cn := by injection hhead.symm
        have hb2 : b = bases := by injection hhead.symm
        have hbd : bd = body := by injection hhead.symm
        subst hn
        subst hb2
        subst hbd
        obtain ⟨msg, hmsg⟩ := rra_body_bad S reg n bd f anno hfld hreach hbad
        exact ⟨msg, by simp [replace_relation_annotations, hmsg]⟩
      · cases hb : rra_body S reg n bd with
        | error msg => exact ⟨msg, by simp [replace_relation_annotations, hb]⟩
        | ok bd2 =>
          obtain ⟨msg, hmsg⟩ :=
            rra_top_bad S reg rest cn bases body f anno htail hfld hreach hbad
          exact ⟨msg, by simp [replace_relation_annotations, hb, hmsg]⟩
    | importFrom mo ns =>
      have htail : Stmt.classDef cn bases body ∈ rest.toListS := by
        rcases List.mem_cons.mp hcls with hhead | htail
        · exact absurd hhead (by simp)
        · exact htail
      obtain ⟨msg, hmsg⟩ :=
        rra_top_bad S reg rest cn bases body f anno htail hfld hreach hbad
      exact ⟨msg, by simp [replace_relation_annotations, hmsg]⟩
    | annAssign t a2 =>
      have htail : Stmt.classDef cn bases body ∈ rest.toListS := by
        rcases List.mem_cons.mp hcls with hhead | htail
        · exact absurd hhead (by simp)
        · exact htail
      obtain ⟨msg, hmsg⟩ :=
        rra_top_bad S reg rest cn bases body f anno htail hfld hreach hbad
      exact ⟨msg, by simp [replace_relation_annotations, hmsg]⟩
    | assign ts v =>
      have htail : Stmt.classDef cn bases body ∈ rest.toListS := by
        rcases List.mem_cons.mp hcls with hhead | htail
        · exact absurd hhead (by simp)
        · exact htail
      obtain ⟨msg, hmsg⟩ :=
        rra_top_bad S reg rest cn bases body f anno htail hfld hreach hbad
      exact ⟨msg, by simp [replace_relation_annotations, hmsg]⟩

/-- C3: the relation-resolution pass signals an error, rather than skipping
or keeping the placeholder silently, whenever a top-level class declares a
field whose annotation can reach the placeholder and (a) the class has no
reverse registry entry, or (b) the mapped schema collection has no field of
that name, or (c) the resolved relation target has no registry entry. -/
theorem c3_resolution_errors (S : List WiredCollection)
    (reg : List (String × Option String)) (tree : StmtList)
    (cn : String) (bases : PExprList) (body : StmtList) (f : String) (anno : PExpr)
    (hcls : Stmt.classDef cn bases body ∈ tree.toListS)
    (hfld : Stmt.annAssign f anno ∈ body.toListS)
    (hreach : reaches_rid anno = true)
    (hbad : resolution_bad S reg f cn) :
    ∃ msg, replace_relation_annotations S reg tree = .error msg :=
  rra_top_bad S reg tree cn bases body f anno hcls hfld hreach hbad

/-- Witness for C3, mismatch (a): a class Ghost with a placeholder field and
an empty registry makes the pass raise. -/
theorem c3_resolution_errors_witness :
    ∃ msg, replace_relation_annotations []
      [] (SL [Stmt.classDef "Ghost" (EL [])
        (SL [Stmt.annAssign "author" (PExpr.nameE "RecordIdString")])]) = .error msg := by
  refine c3_resolution_errors [] [] _ "Ghost" (EL [])
    (SL [Stmt.annAssign "author" (PExpr.nameE "RecordIdString")]) "author"
    (PExpr.nameE "RecordIdString") ?_ ?_ ?_ ?_
  · simp [SL, StmtList.toListS]
  · simp [SL, StmtList.toListS]
  · rfl
  · exact Or.inl rfl
